import Mathlib

/-!
Verification development for the form-producer repository: a FormSpec DSL
parser, a field validator, a file-based message emitter and an inbox scanner.
Strings are modelled as lists of characters (`Str`); filesystem and clock
effects are modelled by explicit world records passed to the functions that
the source performs them in.
-/

namespace FormProducer

/-- Strings of the source program are modelled as lists of characters. -/
abbrev Str := List Char

/-- Decimal digit character for a value below ten, models Python digit rendering. -/
def digitChar (d : Nat) : Char := Char.ofNat (48 + d)

/-- Is the character an ASCII decimal digit.  Models the digits accepted by
Python `int()` / `float()` and by the JSON number grammar (the model restricts
Python's Unicode-digit acceptance to ASCII digits). -/
def isDigitChar (c : Char) : Bool := 48 ≤ c.toNat && c.toNat ≤ 57

/-- Numeric value of an ASCII digit character. -/
def digitVal (c : Char) : Nat := c.toNat - 48

/-- Characters stripped by Python `str.strip()` with no argument
(`str.isspace` characters). -/
def isPySpace (c : Char) : Bool :=
  c = ' ' || c = '\t' || c = '\n' || c = '\r' || c = '\x0b' || c = '\x0c' ||
  c = '\x1c' || c = '\x1d' || c = '\x1e' || c = '\x1f' || c = '\x85' ||
  c = '\xa0' || c.toNat = 5760 ||
  (8192 ≤ c.toNat && c.toNat ≤ 8202) ||
  c.toNat = 8232 || c.toNat = 8233 || c.toNat = 8239 || c.toNat = 8287 ||
  c.toNat = 12288

/-- Line-break characters recognised by Python `str.splitlines`. -/
def isLineBreak (c : Char) : Bool :=
  c = '\n' || c = '\r' || c = '\x0b' || c = '\x0c' ||
  c = '\x1c' || c = '\x1d' || c = '\x1e' || c = '\x85' ||
  c.toNat = 8232 || c.toNat = 8233

/-- Models Python `str.strip()`: drop `isPySpace` characters from both ends. -/
def stripChars (l : Str) : Str :=
  ((l.dropWhile isPySpace).reverse.dropWhile isPySpace).reverse

/-- Accumulator worker for `splitlines`: a break character ends the current
line (a `"\r\n"` pair counts as one break); at the end a non-empty trailing
accumulator yields a final line. -/
def splitlinesAux : Str → Str → List Str
  | [], acc => if acc.isEmpty then [] else [acc.reverse]
  | [c], acc =>
      if isLineBreak c then [acc.reverse]
      else [(c :: acc).reverse]
  | c :: c2 :: rest, acc =>
      if c = '\r' && c2 = '\n' then acc.reverse :: splitlinesAux rest []
      else if isLineBreak c then acc.reverse :: splitlinesAux (c2 :: rest) []
      else splitlinesAux (c2 :: rest) (c :: acc)

/-- Models Python `str.splitlines()`: split at line-break characters, treating
`"\r\n"` as a single break; a trailing break produces no extra empty line. -/
def splitlines (l : Str) : List Str := splitlinesAux l []

/-- Does `pat` occur at the start of `l`.  Executable prefix test. -/
def startsSeq : Str → Str → Bool
  | [], _ => true
  | _ :: _, [] => false
  | p :: ps, c :: cs => p = c && startsSeq ps cs

/-- Does `pat` occur contiguously anywhere inside `l`.  Executable substring
test, used to state "the message mentions ..." claims. -/
def occursIn (pat : Str) : Str → Bool
  | [] => startsSeq pat []
  | c :: cs => startsSeq pat (c :: cs) || occursIn pat cs

/-- Does `suf` occur at the end of `l`.  Executable suffix test, models
Python `str.endswith`. -/
def endsSeq (suf l : Str) : Bool := startsSeq suf.reverse l.reverse

/-- Code-point lexicographic order on character lists; models the order
Python `sorted` uses on `str` values. -/
def lexLe : Str → Str → Bool
  | [], _ => true
  | _ :: _, [] => false
  | a :: as, b :: bs =>
      if a.toNat < b.toNat then true
      else if b.toNat < a.toNat then false
      else lexLe as bs

/-- Reversed decimal digit list of a natural number; `fuel` bounds recursion
depth and any `fuel > 0` with `n ≤ fuel` is enough. -/
def natDigitsRev (fuel n : Nat) : List Nat :=
  match fuel with
  | 0 => []
  | f + 1 => if n < 10 then [n] else (n % 10) :: natDigitsRev f (n / 10)

/-- Decimal rendering of a natural number; models Python `str`/f-string
rendering of a non-negative `int`. -/
def natToChars (n : Nat) : Str := ((natDigitsRev (n + 1) n).reverse).map digitChar

/-- Decimal rendering of an integer; models Python `str` of an `int`. -/
def intToChars (i : Int) : Str :=
  if i < 0 then '-' :: natToChars i.natAbs else natToChars i.natAbs

/-- Value of a digit list read most-significant first. -/
def valOfDigits (ds : List Nat) : Nat := ds.foldl (fun a d => a * 10 + d) 0

/-- Greedy ASCII-digit muncher: consume a maximal run of digits, returning the
accumulated value and the rest; `none` if the first character is not a digit. -/
def munchDigits (l : Str) : Option (Nat × Str) :=
  match l with
  | c :: _ =>
      if isDigitChar c then some (munchDigitsAux 0 l) else none
  | [] => none
where
  munchDigitsAux (acc : Nat) : Str → Nat × Str
    | [] => (acc, [])
    | c :: rest =>
        if isDigitChar c then munchDigitsAux (acc * 10 + digitVal c) rest
        else (acc, c :: rest)

/-- Greedy digit-group muncher accepting single underscores between digits,
as in Python numeric literals accepted by `int()` and `float()`:
`digit (digit | "_" digit)*`.  Returns the value and the rest. -/
def munchDigitsU (l : Str) : Option (Nat × Str) :=
  match l with
  | c :: rest =>
      if isDigitChar c then some (munchDigitsUAux (digitVal c) rest) else none
  | [] => none
where
  munchDigitsUAux (acc : Nat) : Str → Nat × Str
    | [] => (acc, [])
    | '_' :: c :: rest =>
        if isDigitChar c then munchDigitsUAux (acc * 10 + digitVal c) rest
        else (acc, '_' :: c :: rest)
    | c :: rest =>
        if isDigitChar c then munchDigitsUAux (acc * 10 + digitVal c) rest
        else (acc, c :: rest)

/-- Models Python `int(s)` on a string: optional surrounding whitespace, an
optional sign, then a non-empty digit group (single underscores allowed
between digits).  Returns `none` where Python raises `ValueError`.
The model restricts Python's Unicode-digit acceptance to ASCII digits. -/
def pyParseInt (l : Str) : Option Int :=
  let t := stripChars l
  match t with
  | '+' :: rest => pyParseIntBody rest
  | '-' :: rest => (pyParseIntBody rest).map (fun n => -(n : Int))
  | _ => pyParseIntBody t
where
  pyParseIntBody (l : Str) : Option Int :=
    match munchDigitsU l with
    | some (n, []) => some ((n : Int))
    | _ => none

/-- Classification of a successful Python `float(s)` call: a finite value, or
an infinity / NaN (exactly the values `math.isfinite` rejects). -/
inductive FloatClass where
  | finite
  | infOrNan
deriving Repr, DecidableEq

/-- ASCII lower-casing of one character, for case-insensitive literals. -/
def lowerChar (c : Char) : Char :=
  if 65 ≤ c.toNat && c.toNat ≤ 90 then Char.ofNat (c.toNat + 32) else c

/-- Case-insensitive comparison against an (already lower-case) literal. -/
def eqLowered (lit l : Str) : Bool := l.map lowerChar = lit

/-- Exponent part of a Python float literal: empty, or `e`/`E`, an optional
sign and a digit group; must consume the whole rest. -/
def floatExpOk (l : Str) : Bool :=
  match l with
  | [] => true
  | c :: rest =>
      if c = 'e' || c = 'E' then
        match rest with
        | '+' :: r2 => floatDigitsEnd r2
        | '-' :: r2 => floatDigitsEnd r2
        | r2 => floatDigitsEnd r2
      else false
where
  floatDigitsEnd (l : Str) : Bool :=
    match munchDigitsU l with
    | some (_, []) => true
    | _ => false

/-- Mantissa-and-exponent part of a Python float literal (after the sign):
`digits [. [digits]] [exp]` or `. digits [exp]`. -/
def floatBodyOk (l : Str) : Bool :=
  match munchDigitsU l with
  | some (_, rest) =>
      match rest with
      | '.' :: r2 =>
          match munchDigitsU r2 with
          | some (_, r3) => floatExpOk r3
          | none => floatExpOk r2
      | _ => floatExpOk rest
  | none =>
      match l with
      | '.' :: r2 =>
          match munchDigitsU r2 with
          | some (_, r3) => floatExpOk r3
          | none => false
      | _ => false

/-- Models Python `float(s)`: optional surrounding whitespace and sign, then
either a case-insensitive `inf` / `infinity` / `nan` literal (classified
`infOrNan`) or a decimal float literal (classified `finite`); `none` where
Python raises `ValueError`.  Overflow of a finite-syntax literal to an
infinity is below this model's granularity. -/
def pyParseFloat (l : Str) : Option FloatClass :=
  let t := stripChars l
  let u := match t with
           | '+' :: rest => rest
           | '-' :: rest => rest
           | _ => t
  if eqLowered "inf".data u || eqLowered "infinity".data u || eqLowered "nan".data u then
    some .infOrNan
  else if floatBodyOk u then some .finite
  else none

/-! ## JSON values, serialization (`json.dump`) and parsing (`json.loads`)

The model restricts JSON numbers to integers (the repository's own envelopes
only ever serialize integers, strings, booleans, objects and arrays through
these claims); a fractional or exponent number makes the modelled parser
fail, and the modelled serializer only renders integers.  Python dicts are
modelled as ordered key-value lists. -/

/-- A JSON value as produced by Python `json.load`.  Objects are ordered
key-value lists (Python dict insertion order). -/
inductive Json where
  | null
  | bool (b : Bool)
  | num (n : Int)
  | str (s : Str)
  | arr (xs : List Json)
  | obj (xs : List (Str × Json))

instance : Inhabited Json := ⟨Json.null⟩

/-- Lower-case hexadecimal digit, as in Python `'%04x'` formatting. -/
def hexDigit (d : Nat) : Char :=
  if d < 10 then digitChar d else Char.ofNat (97 + d - 10)

/-- Escaping of one character by Python `json.dump` with `ensure_ascii=False`:
quote, backslash and the five named control escapes become two-character
escapes, remaining control characters become `\u00XX`, and every other
character (ASCII or not) is passed through verbatim. -/
def escapeChar (c : Char) : Str :=
  if c = '"' then ['\\', '"']
  else if c = '\\' then ['\\', '\\']
  else if c = '\n' then ['\\', 'n']
  else if c = '\r' then ['\\', 'r']
  else if c = '\t' then ['\\', 't']
  else if c = '\x08' then ['\\', 'b']
  else if c = '\x0c' then ['\\', 'f']
  else if c.toNat < 32 then ['\\', 'u', '0', '0', hexDigit (c.toNat / 16), hexDigit (c.toNat % 16)]
  else [c]

/-- Serialization of a string literal by Python `json.dump`
(`ensure_ascii=False`). -/
def dumpStr (s : Str) : Str := '"' :: (s.map escapeChar).flatten ++ ['"']

mutual

/-- Serialization of a JSON value; models Python `json.dump(value, f,
ensure_ascii=False)` with the default separators `", "` and `": "`. -/
def Json.dumpChars : Json → Str
  | .null => "null".data
  | .bool true => "true".data
  | .bool false => "false".data
  | .num n => intToChars n
  | .str s => dumpStr s
  | .arr xs => '[' :: Json.dumpArr xs ++ [']']
  | .obj xs => '{' :: Json.dumpObj xs ++ ['}']

/-- Serialization of array elements (no brackets). -/
def Json.dumpArr : List Json → Str
  | [] => []
  | x :: t => Json.dumpChars x ++ Json.dumpArrTail t

/-- Serialization of array elements after the first, each preceded by `", "`. -/
def Json.dumpArrTail : List Json → Str
  | [] => []
  | x :: t => ',' :: ' ' :: (Json.dumpChars x ++ Json.dumpArrTail t)

/-- Serialization of object members (no braces). -/
def Json.dumpObj : List (Str × Json) → Str
  | [] => []
  | (k, v) :: t => dumpStr k ++ ':' :: ' ' :: (Json.dumpChars v ++ Json.dumpObjTail t)

/-- Serialization of object members after the first, each preceded by `", "`. -/
def Json.dumpObjTail : List (Str × Json) → Str
  | [] => []
  | (k, v) :: t => ',' :: ' ' :: (dumpStr k ++ ':' :: ' ' :: (Json.dumpChars v ++ Json.dumpObjTail t))

end

/-- JSON inter-token whitespace accepted by Python `json.loads`. -/
def isJsonWs (c : Char) : Bool := c = ' ' || c = '\t' || c = '\n' || c = '\r'

/-- Drop leading JSON whitespace. -/
def skipWs (l : Str) : Str := l.dropWhile isJsonWs

/-- Match an exact literal prefix, returning the rest on success. -/
def dropLit : Str → Str → Option Str
  | [], s => some s
  | c :: cs, d :: ds => if c = d then dropLit cs ds else none
  | _ :: _, [] => none

/-- Value of a hexadecimal digit character, either case. -/
def hexVal (c : Char) : Option Nat :=
  if isDigitChar c then some (digitVal c)
  else if 97 ≤ c.toNat && c.toNat ≤ 102 then some (c.toNat - 87)
  else if 65 ≤ c.toNat && c.toNat ≤ 70 then some (c.toNat - 55)
  else none

/-- Inverse of the named two-character escapes of the JSON grammar. -/
def escUnmap (c : Char) : Option Char :=
  if c = '"' then some '"'
  else if c = '\\' then some '\\'
  else if c = '/' then some '/'
  else if c = 'b' then some '\x08'
  else if c = 'f' then some '\x0c'
  else if c = 'n' then some '\n'
  else if c = 'r' then some '\r'
  else if c = 't' then some '\t'
  else none

/-- Parse the four hex digits of a `\uXXXX` escape that must follow a high
surrogate, returning the code unit and the rest. -/
def parseUHexLow : Str → Option (Nat × Str)
  | '\\' :: 'u' :: g1 :: g2 :: g3 :: g4 :: r4 =>
    match hexVal g1, hexVal g2, hexVal g3, hexVal g4 with
    | some a, some b, some c4, some d => some (((a * 16 + b) * 16 + c4) * 16 + d, r4)
    | _, _, _, _ => none
  | _ => none

/-- Parse the hex digits of a `\uXXXX` escape (after `\u`), combining a
surrogate pair into one code point as Python `json.loads` does.  A lone
surrogate escape is rejected (Python would keep a lone surrogate code unit,
which `Char` cannot represent; no claim depends on such inputs). -/
def parseUHex : Str → Option (Char × Str)
  | h1 :: h2 :: h3 :: h4 :: r3 =>
    match hexVal h1, hexVal h2, hexVal h3, hexVal h4 with
    | some a, some b, some c4, some d =>
      let n := ((a * 16 + b) * 16 + c4) * 16 + d
      if 55296 ≤ n ∧ n ≤ 56319 then
        match parseUHexLow r3 with
        | some (m, r4) =>
          if 56320 ≤ m ∧ m ≤ 57343 then
            some (Char.ofNat (65536 + (n - 55296) * 1024 + (m - 56320)), r4)
          else none
        | none => none
      else if 56320 ≤ n ∧ n ≤ 57343 then none
      else some (Char.ofNat n, r3)
    | _, _, _, _ => none
  | _ => none

/-- Parse one escape sequence after the backslash: a named escape or a
`\uXXXX` escape. -/
def parseEscape : Str → Option (Char × Str)
  | [] => none
  | e :: r2 =>
    if e = 'u' then parseUHex r2
    else
      match escUnmap e with
      | some ch => some (ch, r2)
      | none => none

/-- Parse the body of a JSON string literal (after the opening quote), up to
and including the closing quote; models Python `json.loads` string scanning
in its default strict mode (raw control characters rejected).  `fuel` bounds
the recursion; every step consumes at least one input character, so any
`fuel` larger than the input length is enough. -/
def parseStringBody (fuel : Nat) (s : Str) : Option (Str × Str) :=
  match fuel with
  | 0 => none
  | fuel + 1 =>
    match s with
    | [] => none
    | c :: rest =>
      if c = '"' then some ([], rest)
      else if c = '\\' then
        match parseEscape rest with
        | some (ch, r3) =>
          match parseStringBody fuel r3 with
          | some (s2, r5) => some (ch :: s2, r5)
          | none => none
        | none => none
      else if c.toNat < 32 then none
      else
        match parseStringBody fuel rest with
        | some (s2, r5) => some (c :: s2, r5)
        | none => none

/-- Parse the magnitude of a JSON number: a digit run with no leading zero.
A following `.`, `e` or `E` (a fractional or exponent number) is outside the
integer-restricted model and makes the parse fail. -/
def parseNumMag (l : Str) : Option (Nat × Str) :=
  match l with
  | c :: rest =>
    if isDigitChar c then
      if c = '0' then numTailOk 0 rest
      else
        match munchDigits (c :: rest) with
        | some (n, r) => numTailOk n r
        | none => none
    else none
  | [] => none
where
  numTailOk (n : Nat) (r : Str) : Option (Nat × Str) :=
    match r with
    | [] => some (n, [])
    | c :: _ =>
        if isDigitChar c || c = '.' || c = 'e' || c = 'E' then none
        else some (n, r)

/-- Parse a JSON number (integer-restricted model): optional minus sign and a
digit run. -/
def parseNumber (l : Str) : Option (Int × Str) :=
  match l with
  | '-' :: rest => (parseNumMag rest).map (fun p => (-(p.1 : Int), p.2))
  | _ => (parseNumMag l).map (fun p => ((p.1 : Int), p.2))

mutual

/-- Parse one JSON value; models the recursive-descent scanner of Python
`json.loads`.  `fuel` bounds the recursion depth; every recursive call passes
`fuel` decremented, and any `fuel` at least the nesting size succeeds. -/
def parseVal (fuel : Nat) (s : Str) : Option (Json × Str) :=
  match fuel with
  | 0 => none
  | fuel + 1 =>
    match skipWs s with
    | [] => none
    | c :: rest =>
      if c = '{' then parseMembers fuel rest
      else if c = '[' then parseElems fuel rest
      else if c = '"' then
        match parseStringBody (rest.length + 1) rest with
        | some (cs, r) => some (Json.str cs, r)
        | none => none
      else if c = 't' then (dropLit "rue".data rest).map (fun r => (Json.bool true, r))
      else if c = 'f' then (dropLit "alse".data rest).map (fun r => (Json.bool false, r))
      else if c = 'n' then (dropLit "ull".data rest).map (fun r => (Json.null, r))
      else (parseNumber (c :: rest)).map (fun p => (Json.num p.1, p.2))

/-- Parse array elements after `[`: either an immediate `]` or a first value
followed by the element tail. -/
def parseElems (fuel : Nat) (s : Str) : Option (Json × Str) :=
  match fuel with
  | 0 => none
  | fuel + 1 =>
    match skipWs s with
    | ']' :: rest => some (Json.arr [], rest)
    | s2 =>
      match parseVal fuel s2 with
      | some (v, r) =>
        match parseElemsTail fuel r with
        | some (Json.arr vs, r2) => some (Json.arr (v :: vs), r2)
        | _ => none
      | none => none

/-- Parse array elements after a value: `]` ends the array, `,` demands
another value. -/
def parseElemsTail (fuel : Nat) (s : Str) : Option (Json × Str) :=
  match fuel with
  | 0 => none
  | fuel + 1 =>
    match skipWs s with
    | ']' :: rest => some (Json.arr [], rest)
    | ',' :: rest =>
      match parseVal fuel rest with
      | some (v, r) =>
        match parseElemsTail fuel r with
        | some (Json.arr vs, r2) => some (Json.arr (v :: vs), r2)
        | _ => none
      | none => none
    | _ => none

/-- Parse object members after `{`: either an immediate `}` or a first
`"key": value` member followed by the member tail. -/
def parseMembers (fuel : Nat) (s : Str) : Option (Json × Str) :=
  match fuel with
  | 0 => none
  | fuel + 1 =>
    match skipWs s with
    | '}' :: rest => some (Json.obj [], rest)
    | '"' :: rest =>
      match parseStringBody (rest.length + 1) rest with
      | some (k, r) =>
        match skipWs r with
        | ':' :: r2 =>
          match parseVal fuel r2 with
          | some (v, r3) =>
            match parseMembersTail fuel r3 with
            | some (Json.obj kvs, r4) => some (Json.obj ((k, v) :: kvs), r4)
            | _ => none
          | none => none
        | _ => none
      | none => none
    | _ => none

/-- Parse object members after a member: `}` ends the object, `,` demands
another `"key": value` member. -/
def parseMembersTail (fuel : Nat) (s : Str) : Option (Json × Str) :=
  match fuel with
  | 0 => none
  | fuel + 1 =>
    match skipWs s with
    | '}' :: rest => some (Json.obj [], rest)
    | ',' :: rest =>
      match skipWs rest with
      | '"' :: r1 =>
        match parseStringBody (r1.length + 1) r1 with
        | some (k, r) =>
          match skipWs r with
          | ':' :: r2 =>
            match parseVal fuel r2 with
            | some (v, r3) =>
              match parseMembersTail fuel r3 with
              | some (Json.obj kvs, r4) => some (Json.obj ((k, v) :: kvs), r4)
              | _ => none
            | none => none
          | _ => none
        | none => none
      | _ => none
    | _ => none

end

/-- Models Python `json.loads` (and `json.load` on file text): parse one JSON
value and demand that only whitespace follows. -/
def jsonLoads (l : Str) : Option Json :=
  match parseVal (2 * l.length + 4) l with
  | some (v, rest) => if skipWs rest = [] then some v else none
  | none => none

mutual

/-- Fuel bound for `parseVal` on a dumped value. -/
def Json.szV : Json → Nat
  | .null => 1
  | .bool _ => 1
  | .num _ => 1
  | .str _ => 1
  | .arr xs => 1 + Json.szE xs
  | .obj xs => 1 + Json.szM xs

/-- Fuel bound for `parseElems` on dumped elements. -/
def Json.szE : List Json → Nat
  | [] => 1
  | x :: t => 1 + Json.szV x + Json.szT t

/-- Fuel bound for `parseElemsTail` on dumped trailing elements. -/
def Json.szT : List Json → Nat
  | [] => 1
  | x :: t => 1 + Json.szV x + Json.szT t

/-- Fuel bound for `parseMembers` on dumped members. -/
def Json.szM : List (Str × Json) → Nat
  | [] => 1
  | m :: t => 1 + Json.szV m.2 + Json.szMT t

/-- Fuel bound for `parseMembersTail` on dumped trailing members. -/
def Json.szMT : List (Str × Json) → Nat
  | [] => 1
  | m :: t => 1 + Json.szV m.2 + Json.szMT t

end

/-- Is the list empty or starting with a character that ends a JSON number
(not a digit, dot or exponent mark). -/
def numDelim : Str → Bool
  | [] => true
  | c :: _ => !(isDigitChar c || c = '.' || c = 'e' || c = 'E')

/-- Is the list empty or starting with a non-digit. -/
def headNotDigit : Str → Bool
  | [] => true
  | c :: _ => !isDigitChar c

/-! ## FormSpec DSL parser (`parser.py`) -/

/-- The closed set of field types with their declared parameters
(`_parse_type_spec` result dicts, minus the `id` key). -/
inductive FieldType where
  | bool
  | date
  | time
  | fixed (value : Str)
  | str (width : Int)
  | int (width : Int)
  | float (width : Int)
  | text (width height : Int)
  | json (width height : Int)
  | choice (items : List Str)
deriving Repr, DecidableEq

/-- One parsed field: the identifier and its type spec. -/
structure Field where
  id : Str
  type : FieldType
deriving Repr, DecidableEq

/-- The directive mapping: at most the two recognized keys. -/
structure Directives where
  channel : Option Str := none
  outbox : Option Str := none
deriving Repr, DecidableEq

/-- Parser state threaded through the line loop of `parse_spec`:
accumulated directives, fields in order, and the set of seen identifiers. -/
structure PState where
  directives : Directives
  fields : List Field
  seen : List Str
deriving Repr

/-- The initial parser state: no directives, no fields, no seen identifiers. -/
def initPState : PState := ⟨{}, [], []⟩

/-- Split at the first occurrence of `--`, models Python
`line.partition('--')` when the separator occurs; `none` when it does not
(`'--' not in line`). -/
def splitTwoDash : Str → Option (Str × Str)
  | [] => none
  | [_] => none
  | c :: c2 :: rest =>
      if c = '-' && c2 = '-' then some ([], rest)
      else (splitTwoDash (c2 :: rest)).map (fun p => (c :: p.1, p.2))

/-- Does the list contain two adjacent dashes (the Python `'--' in line`
test). -/
def hasTwoDash : Str → Bool
  | [] => false
  | [_] => false
  | c :: c2 :: rest =>
      if c = '-' && c2 = '-' then true else hasTwoDash (c2 :: rest)

/-- Join lines with a newline separator (the inverse image used to build
multi-line DSL texts in the theorems below). -/
def joinNl : List Str → Str
  | [] => []
  | [l] => l
  | l :: rest => l ++ '\n' :: joinNl rest

/-- Split at the first `<`, models `type_spec.partition('<')` combined with
the `'<' not in type_spec` test: `none` when there is no `<`. -/
def splitLt : Str → Option (Str × Str)
  | [] => none
  | c :: rest =>
      if c = '<' then some ([], rest)
      else (splitLt rest).map (fun p => (c :: p.1, p.2))

/-- Split on every comma, models Python `s.split(',')` (always at least one
piece). -/
def splitComma (l : Str) : List Str :=
  match l with
  | [] => [[]]
  | c :: rest =>
    if c = ',' then [] :: splitComma rest
    else
      match splitComma rest with
      | p :: ps => (c :: p) :: ps
      | [] => [[c]]

/-- Models `_parse_directive_line`: strip the leading `#`, and when the
remainder starts with `channel:` or `outbox:` and carries a non-empty value,
set that key (later directives overwrite earlier ones); anything else is a
comment with no effect. -/
def _parse_directive_line (line : Str) (d : Directives) : Directives :=
  let content := stripChars (line.drop 1)
  if startsSeq "channel:".data content then
    let value := stripChars (content.drop 8)
    if value.isEmpty then d else { d with channel := some value }
  else if startsSeq "outbox:".data content then
    let value := stripChars (content.drop 7)
    if value.isEmpty then d else { d with outbox := some value }
  else d

/-- Models `_parse_one_int`: `int(s.strip())`, failing with the
`must be an integer` message, then the `>= 1` bound check. -/
def _parse_one_int (s : Str) (param_name : Str) (identifier : Str) (lineno : Nat) :
    Except Str Int :=
  match pyParseInt s with
  | none =>
      .error ("Line ".data ++ natToChars lineno ++ ": ".data ++ param_name ++
              " must be an integer for '".data ++ identifier ++ "'".data)
  | some v =>
      if v < 1 then
        .error ("Line ".data ++ natToChars lineno ++ ": ".data ++ param_name ++
                " must be >= 1 for '".data ++ identifier ++ "'".data)
      else .ok v

/-- Models `_parse_two_ints`: split on commas, demand exactly two pieces,
parse both as integers, then check both bounds. -/
def _parse_two_ints (s : Str) (identifier : Str) (lineno : Nat) :
    Except Str (Int × Int) :=
  match splitComma s with
  | [p0, p1] =>
    match pyParseInt (stripChars p0), pyParseInt (stripChars p1) with
    | some w, some h =>
        if w < 1 || h < 1 then
          .error ("Line ".data ++ natToChars lineno ++
                  ": width and height must be >= 1 for '".data ++ identifier ++ "'".data)
        else .ok (w, h)
    | _, _ =>
        .error ("Line ".data ++ natToChars lineno ++
                ": width and height must be integers for '".data ++ identifier ++ "'".data)
  | _ =>
      .error ("Line ".data ++ natToChars lineno ++
              ": expected <width,height> for '".data ++ identifier ++ "'".data)

/-- Models `_parse_type_spec`: dispatch on the (already comment-stripped,
trimmed) type spec text. -/
def _parse_type_spec (type_spec : Str) (identifier : Str) (lineno : Nat) :
    Except Str FieldType :=
  if type_spec = "bool".data then .ok .bool
  else if type_spec = "date".data then .ok .date
  else if type_spec = "time".data then .ok .time
  else if startsSeq "\"".data type_spec then
    if !endsSeq "\"".data type_spec || type_spec.length < 2 then
      .error ("Line ".data ++ natToChars lineno ++ ": malformed fixed value for '".data ++
              identifier ++ "' (must be a quoted string)".data)
    else .ok (.fixed ((type_spec.drop 1).dropLast))
  else
    match splitLt type_spec with
    | none =>
        .error ("Line ".data ++ natToChars lineno ++ ": unknown type '".data ++
                type_spec ++ "' for '".data ++ identifier ++ "'".data)
    | some (before, rest) =>
      let type_name := stripChars before
      if !endsSeq ">".data rest then
        .error ("Line ".data ++ natToChars lineno ++ ": malformed type parameters for '".data ++
                identifier ++ "' (missing '>')".data)
      else
        let params_str := rest.dropLast
        if type_name = "str".data then
          (_parse_one_int params_str "width".data identifier lineno).map .str
        else if type_name = "int".data then
          (_parse_one_int params_str "width".data identifier lineno).map .int
        else if type_name = "float".data then
          (_parse_one_int params_str "width".data identifier lineno).map .float
        else if type_name = "text".data then
          (_parse_two_ints params_str identifier lineno).map (fun p => .text p.1 p.2)
        else if type_name = "json".data then
          (_parse_two_ints params_str identifier lineno).map (fun p => .json p.1 p.2)
        else if type_name = "choice".data then
          let items := (splitComma params_str).map stripChars
          if items.isEmpty || items.any (·.isEmpty) then
            .error ("Line ".data ++ natToChars lineno ++ ": empty item in choice list for '".data ++
                    identifier ++ "'".data)
          else .ok (.choice items)
        else
          .error ("Line ".data ++ natToChars lineno ++ ": unknown type '".data ++
                  type_name ++ "' for '".data ++ identifier ++ "'".data)

/-- One iteration of the `parse_spec` line loop: blank lines skipped,
`#` lines handled as directives, anything else as a field line. -/
def processLine (lineno : Nat) (raw_line : Str) (st : PState) : Except Str PState :=
  let line := stripChars raw_line
  if line.isEmpty then .ok st
  else if startsSeq "#".data line then
    .ok { st with directives := _parse_directive_line line st.directives }
  else
    match splitTwoDash line with
    | none =>
        .error ("Line ".data ++ natToChars lineno ++ ": missing '--' separator".data)
    | some (left, right) =>
      let identifier := stripChars left
      if identifier.isEmpty then
        .error ("Line ".data ++ natToChars lineno ++ ": empty identifier".data)
      else if identifier ∈ st.seen then
        .error ("Line ".data ++ natToChars lineno ++ ": duplicate identifier '".data ++
                identifier ++ "'".data)
      else
        let seen2 := identifier :: st.seen
        let tsr := stripChars right
        let type_spec_raw :=
          if tsr.contains '#' then stripChars (tsr.takeWhile (· ≠ '#')) else tsr
        match _parse_type_spec type_spec_raw identifier lineno with
        | .error e => .error e
        | .ok ft =>
            .ok { st with
                  fields := st.fields ++ [⟨identifier, ft⟩],
                  seen := seen2 }

/-- Process lines from a given 1-based line number onwards, stopping at the
first error (`parse_spec` raises on the first bad line). -/
def processLines (lineno : Nat) (lines : List Str) (st : PState) : Except Str PState :=
  match lines with
  | [] => .ok st
  | l :: rest =>
    match processLine lineno l st with
    | .ok st2 => processLines (lineno + 1) rest st2
    | .error e => .error e

/-- Models `parse_spec`: split into lines, enumerate from 1, and process each
line; returns the directives and the ordered field list, or the first
`ParseError` message. -/
def parse_spec (text : Str) : Except Str (Directives × List Field) :=
  (processLines 1 (splitlines text) initPState).map (fun st => (st.directives, st.fields))

/-! ## Message emitter (`emitter.py`)

Filesystem and clock effects are modelled by an `EmitWorld`: the fresh
`uuid.uuid4()` rendering, the `str(time.time())` rendering, whether
`os.makedirs` raises, how much of the single file write completes before an
`OSError` (if any), the OS reason strings interpolated into error messages,
and the outbox directory's existing files. -/

/-- The effect environment of one `emit_message` call. -/
structure EmitWorld where
  /-- Rendering of the fresh `uuid.uuid4()` value. -/
  uuid : Str
  /-- Rendering of `str(time.time())` at build time. -/
  timestampNow : Str
  /-- Does `os.makedirs(outbox_path, exist_ok=True)` raise `OSError`. -/
  mkdirFails : Bool
  /-- `none`: the open/write/close completes; `some k`: an `OSError` is
  raised after `k` characters of the file's content reached the disk. -/
  writeInterrupt : Option Nat
  /-- Rendering of the caught `OSError` for the makedirs failure. -/
  mkdirErr : Str
  /-- Rendering of the caught `OSError` for the write failure. -/
  writeErr : Str
  /-- Files already present in the outbox directory: basename and content. -/
  files : List (Str × Str)

/-- Canonical textual form of a `uuid.uuid4()` value: lower-case hex in
8-4-4-4-12 groups. -/
def isCanonicalUuid (l : Str) : Bool :=
  let isHex := fun (c : Char) =>
    isDigitChar c || (97 ≤ c.toNat && c.toNat ≤ 102)
  match l.splitOn '-' with
  | [a, b, c, d, e] =>
      a.length = 8 && b.length = 4 && c.length = 4 && d.length = 4 && e.length = 12 &&
      (a ++ b ++ c ++ d ++ e).all isHex
  | _ => false

/-- Models `build_message`: the Patchboard core envelope, with
`str(time.time())` supplied by the world. -/
def build_message (signal : Json) (channel : Str) (w : EmitWorld) : Json :=
  .obj [("channel".data, .str channel),
        ("timestamp".data, .str w.timestampNow),
        ("signal".data, signal)]

/-- Models `write_message`: ensure the outbox directory exists (an `OSError`
becomes `EmitError` naming the directory, touching no file), then write the
serialized envelope plus a newline directly to `<uuid4>.json` (an `OSError`
during the write becomes `EmitError` naming the file; the file then holds
the prefix of the content that was written).  Returns the basename and the
final directory contents. -/
def write_message (message : Json) (outbox_path : Str) (w : EmitWorld) :
    Except Str Str × List (Str × Str) :=
  if w.mkdirFails then
    (.error ("Cannot create OUTBOX directory '".data ++ outbox_path ++ "': ".data ++ w.mkdirErr),
     w.files)
  else
    let filename := w.uuid ++ ".json".data
    let filepath := outbox_path ++ '/' :: filename
    let content := message.dumpChars ++ ['\n']
    match w.writeInterrupt with
    | none => (.ok filename, w.files ++ [(filename, content)])
    | some k =>
        (.error ("Cannot write file '".data ++ filepath ++ "': ".data ++ w.writeErr),
         w.files ++ [(filename, content.take k)])

/-- Models `emit_message`: build the envelope and write it. -/
def emit_message (signal : Json) (channel : Str) (outbox_path : Str) (w : EmitWorld) :
    Except Str Str × List (Str × Str) :=
  write_message (build_message signal channel w) outbox_path w

/-! ## Inbox scanner (`inbox.py`)

Filesystem effects of one `scan_inbox` call are modelled by an
`InboxWorld`: whether the path is a directory, the result of `os.listdir`
(`none` models an `OSError`), and the combined result of opening and
`json.load`-ing each entry (`none` models an `OSError` or
`JSONDecodeError`). -/

/-- The effect environment of one `scan_inbox` call. -/
structure InboxWorld where
  /-- Result of `os.path.isdir(inbox_path)`. -/
  isdir : Bool
  /-- Result of `os.listdir(inbox_path)`; `none` models an `OSError`. -/
  listing : Option (List Str)
  /-- Combined result of `open` + `json.load` on an entry, by filename;
  `none` models an `OSError` or `JSONDecodeError`. -/
  readJson : Str → Option Json

/-- POSIX `os.path.join` for a directory and a relative basename. -/
def pathJoin (dir base : Str) : Str := dir ++ '/' :: base

/-- Stable insertion of a string into a `lexLe`-sorted list, after any equal
elements (the placement Python's stable sort gives). -/
def insertLe (x : Str) : List Str → List Str
  | [] => [x]
  | y :: ys => if lexLe y x then y :: insertLe x ys else x :: y :: ys

/-- Models Python `sorted` on a list of strings: a stable sort by the
code-point lexicographic order. -/
def sortLe (l : List Str) : List Str := l.foldr insertLe []

/-- One iteration of the `scan_inbox` loop: skip entries without the
`.json` suffix, skip read/parse failures and non-dict values, and pair an
accepted entry's path with its parsed object. -/
def scanAccept (inbox_path : Str) (w : InboxWorld) (filename : Str) :
    Option (Str × Json) :=
  if !endsSeq ".json".data filename then none
  else
    match w.readJson filename with
    | some (Json.obj kvs) => some (pathJoin inbox_path filename, Json.obj kvs)
    | _ => none

/-- Models `scan_inbox`: empty on a missing directory or a listing failure;
otherwise visit the sorted listing, keep `.json` entries that read and parse
as a JSON object, and pair each with its path. -/
def scan_inbox (inbox_path : Str) (w : InboxWorld) : List (Str × Json) :=
  if !w.isdir then []
  else
    match w.listing with
    | none => []
    | some entries => (sortLe entries).filterMap (scanAccept inbox_path w)

/-- Python `dict.get` on a JSON object's key-value list (last binding wins,
as in a dict built by insertion); `none` models Python `None`. -/
def jGet (kvs : List (Str × Json)) (key : Str) : Option Json :=
  (kvs.reverse.find? (fun p => p.1 = key)).map (fun p => p.2)

/-- Boolean equality test against a fixed JSON string, models Python
`value == 'text'` on a decoded JSON value versus a `str` literal. -/
def jIsStr (v : Option Json) (lit : Str) : Bool :=
  match v with
  | some (.str s) => s = lit
  | _ => false

/-- Models `is_text_message`: the value is a dict whose `channel` equals the
string `text` and whose `signal` is a string. -/
def is_text_message (message : Json) : Bool :=
  match message with
  | .obj kvs =>
      jIsStr (jGet kvs "channel".data) "text".data &&
      (match jGet kvs "signal".data with
       | some (.str _) => true
       | _ => false)
  | _ => false

/-! ## Configuration resolution and value collection (`app.py`) -/

/-- The externally supplied configuration (`g["config"]`): each key may be
missing / `None`. -/
structure Config where
  channel : Option Str := none
  outbox : Option Str := none
deriving Repr, DecidableEq

/-- The per-tab state the resolution functions consult: the directives of
the tab's most recent successful parse. -/
structure Tab where
  directives : Directives
deriving Repr, DecidableEq

/-- Models `_effective_channel`: the tab's channel directive when present
and non-empty (Python truthiness), else the configured channel when
non-`None` and non-empty (`or` chain), else `"output"`. -/
def _effective_channel (cfg : Config) (tab : Option Tab) : Str :=
  let fromConfig :=
    match cfg.channel with
    | some c => if c.isEmpty then "output".data else c
    | none => "output".data
  match tab with
  | some t =>
    match t.directives.channel with
    | some v => if v.isEmpty then fromConfig else v
    | none => fromConfig
  | none => fromConfig

/-- Models `_effective_outbox`: the tab's outbox directive when present and
non-empty, else the configured outbox whenever it is not `None` (an empty
string is returned as-is), else `"OUTBOX"`. -/
def _effective_outbox (cfg : Config) (tab : Option Tab) : Str :=
  let fromConfig :=
    match cfg.outbox with
    | some c => c
    | none => "OUTBOX".data
  match tab with
  | some t =>
    match t.directives.outbox with
    | some v => if v.isEmpty then fromConfig else v
    | none => fromConfig
  | none => fromConfig

/-! ## Value collection and validation (`_collect_values_from_tab`)

The widget reads of `_read_widget_from_tab` are modelled by two maps from
field id to raw value: the boolean variable of a `bool` field and the text
content of every other widget.  The collected signal is a list of
`(field id, value)` pairs in schema order (dict insertion order); a
validation failure is the status-bar message (the source shows it, focuses
the widget and returns `None`). -/

/-- Two-digit reading helper: value of two digit characters. -/
def twoDigits (a b : Char) : Option Nat :=
  if isDigitChar a && isDigitChar b then some (digitVal a * 10 + digitVal b) else none

/-- Days of a month in the proleptic Gregorian calendar. -/
def daysInMonth (year month : Nat) : Nat :=
  if month = 2 then
    if year % 4 = 0 && (year % 100 ≠ 0 || year % 400 = 0) then 29 else 28
  else if month = 4 || month = 6 || month = 9 || month = 11 then 30
  else 31

/-- Models `datetime.date.fromisoformat` success: exactly `yyyy-mm-dd` with a
valid calendar date (year 1–9999). -/
def isIsoDate (l : Str) : Bool :=
  match l with
  | [y1, y2, y3, y4, '-', m1, m2, '-', d1, d2] =>
    match twoDigits y1 y2, twoDigits y3 y4, twoDigits m1 m2, twoDigits d1 d2 with
    | some yh, some yl, some m, some d =>
      let year := yh * 100 + yl
      1 ≤ year && 1 ≤ m && m ≤ 12 && 1 ≤ d && d ≤ daysInMonth year m
    | _, _, _, _ => false
  | _ => false

/-- Models `datetime.time.fromisoformat` success: `hh:mm`, `hh:mm:ss`, or
`hh:mm:ss` with a 3- or 6-digit fraction, with in-range components. -/
def isIsoTime (l : Str) : Bool :=
  match l with
  | [h1, h2, ':', m1, m2] => timePartsOk h1 h2 m1 m2
  | [h1, h2, ':', m1, m2, ':', s1, s2] =>
      timePartsOk h1 h2 m1 m2 && secondsOk s1 s2
  | h1 :: h2 :: ':' :: m1 :: m2 :: ':' :: s1 :: s2 :: '.' :: frac =>
      timePartsOk h1 h2 m1 m2 && secondsOk s1 s2 &&
      (frac.length = 3 || frac.length = 6) && frac.all isDigitChar
  | _ => false
where
  timePartsOk (h1 h2 m1 m2 : Char) : Bool :=
    match twoDigits h1 h2, twoDigits m1 m2 with
    | some h, some m => h ≤ 23 && m ≤ 59
    | _, _ => false
  secondsOk (s1 s2 : Char) : Bool :=
    match twoDigits s1 s2 with
    | some s => s ≤ 59
    | _ => false

/-- The raw widget state of one tab. -/
structure TabInput where
  boolRaw : Str → Bool
  textRaw : Str → Str

/-- A collected typed value.  A validated float is kept as its trimmed raw
text (the model does not compute floating-point values; validation only
depends on `float()` succeeding with a finite result). -/
inductive Value where
  | bool (b : Bool)
  | int (n : Int)
  | floatV (raw : Str)
  | json (j : Json)
  | str (s : Str)

/-- One iteration of the `_collect_values_from_tab` field loop: read the
raw value and convert/validate it according to the field type, or produce
the status-bar error message. -/
def collectField (tab : TabInput) (f : Field) : Except Str Value :=
  match f.type with
  | .bool => .ok (.bool (tab.boolRaw f.id))
  | .int _ =>
    match pyParseInt (stripChars (tab.textRaw f.id)) with
    | some n => .ok (.int n)
    | none => .error ("'".data ++ f.id ++ "': must be an integer".data)
  | .float _ =>
    match pyParseFloat (stripChars (tab.textRaw f.id)) with
    | none => .error ("'".data ++ f.id ++ "': must be a number".data)
    | some .infOrNan => .error ("'".data ++ f.id ++ "': NaN and Infinity are not allowed".data)
    | some .finite => .ok (.floatV (stripChars (tab.textRaw f.id)))
  | .json _ _ =>
    match jsonLoads (tab.textRaw f.id) with
    | some j => .ok (.json j)
    | none => .error ("'".data ++ f.id ++ "': invalid JSON — ".data)
  | .date =>
    if isIsoDate (stripChars (tab.textRaw f.id)) then .ok (.str (stripChars (tab.textRaw f.id)))
    else .error ("'".data ++ f.id ++ "': must be a date in yyyy-mm-dd format".data)
  | .time =>
    if isIsoTime (stripChars (tab.textRaw f.id)) then .ok (.str (stripChars (tab.textRaw f.id)))
    else .error ("'".data ++ f.id ++ "': must be a time in hh:mm:ss format".data)
  | .fixed v => .ok (.str v)
  | .str _ => .ok (.str (tab.textRaw f.id))
  | .text _ _ => .ok (.str (tab.textRaw f.id))
  | .choice _ => .ok (.str (tab.textRaw f.id))

/-- Models `_collect_values_from_tab`: validate field-by-field in schema
order, stopping at the first failure (whose status message is returned);
on success the signal holds one entry per field, in order. -/
def _collect_values_from_tab (fields : List Field) (tab : TabInput) :
    Except Str (List (Str × Value)) :=
  match fields with
  | [] => .ok []
  | f :: rest =>
    match collectField tab f with
    | .error e => .error e
    | .ok v =>
      match _collect_values_from_tab rest tab with
      | .ok sig => .ok ((f.id, v) :: sig)
      | .error e => .error e

/-! ## Helper lemmas -/

theorem startsSeq_append (p r : Str) : startsSeq p (p ++ r) = true := by
  induction p with
  | nil => rfl
  | cons c cs ih => simp [startsSeq, ih]

theorem occursIn_of_startsSeq {pat l : Str} (h : startsSeq pat l = true) :
    occursIn pat l = true := by
  cases l with
  | nil => exact h
  | cons c cs => simp [occursIn, h]

theorem occursIn_mid (pre pat suf : Str) : occursIn pat (pre ++ (pat ++ suf)) = true := by
  induction pre with
  | nil => exact occursIn_of_startsSeq (startsSeq_append _ _)
  | cons c cs ih => simp [occursIn, ih]

theorem lexLe_total (a b : Str) : lexLe a b = true ∨ lexLe b a = true := by
  induction a generalizing b with
  | nil => left; rfl
  | cons c cs ih =>
    cases b with
    | nil => right; rfl
    | cons d ds =>
      rcases Nat.lt_trichotomy c.toNat d.toNat with h | h | h
      · left; simp [lexLe, h]
      · rcases ih ds with h2 | h2
        · left; simp [lexLe, h, h2]
        · right; simp [lexLe, h, h2]
      · right; simp [lexLe, h]

theorem lexLe_trans {a b c : Str} (h1 : lexLe a b = true) (h2 : lexLe b c = true) :
    lexLe a c = true := by
  induction a generalizing b c with
  | nil => rfl
  | cons x xs ih =>
    cases b with
    | nil => simp [lexLe] at h1
    | cons y ys =>
      cases c with
      | nil => simp [lexLe] at h2
      | cons z zs =>
        simp only [lexLe] at h1 h2 ⊢
        by_cases hxy : x.toNat < y.toNat
        · by_cases hyz : y.toNat < z.toNat
          · have hlt : x.toNat < z.toNat := Nat.lt_trans hxy hyz
            simp [hlt]
          · by_cases hzy : z.toNat < y.toNat
            · simp [hyz, hzy] at h2
            · have heq : y.toNat = z.toNat :=
                Nat.le_antisymm (Nat.not_lt.mp hzy) (Nat.not_lt.mp hyz)
              have hlt : x.toNat < z.toNat := heq ▸ hxy
              simp [hlt]
        · by_cases hyx : y.toNat < x.toNat
          · simp [hxy, hyx] at h1
          · have hxyeq : x.toNat = y.toNat :=
              Nat.le_antisymm (Nat.not_lt.mp hyx) (Nat.not_lt.mp hxy)
            simp only [hxy, if_false, hyx] at h1
            by_cases hyz : y.toNat < z.toNat
            · have hlt : x.toNat < z.toNat := hxyeq ▸ hyz
              simp [hlt]
            · by_cases hzy : z.toNat < y.toNat
              · simp [hyz, hzy] at h2
              · have hyzeq : y.toNat = z.toNat :=
                  Nat.le_antisymm (Nat.not_lt.mp hzy) (Nat.not_lt.mp hyz)
                simp only [hyz, if_false, hzy] at h2
                have hxz : ¬ x.toNat < z.toNat := by omega
                have hzx : ¬ z.toNat < x.toNat := by omega
                simp only [hxz, if_false, hzx]
                exact ih h1 h2

theorem mem_insertLe {a x : Str} {l : List Str} :
    a ∈ insertLe x l ↔ a = x ∨ a ∈ l := by
  induction l with
  | nil => simp [insertLe]
  | cons y ys ih =>
    by_cases h : lexLe y x = true
    · simp only [insertLe, h, if_true, List.mem_cons, ih]
      tauto
    · have h2 : lexLe y x = false := by simpa using h
      simp [insertLe, h2]

theorem mem_sortLe {a : Str} {l : List Str} : a ∈ sortLe l ↔ a ∈ l := by
  induction l with
  | nil => simp [sortLe]
  | cons y ys ih =>
    simp only [sortLe, List.foldr] at ih ⊢
    rw [mem_insertLe, ih]; simp

theorem pairwise_insertLe {x : Str} {l : List Str}
    (hl : l.Pairwise (fun a b => lexLe a b = true)) :
    (insertLe x l).Pairwise (fun a b => lexLe a b = true) := by
  induction l with
  | nil => simp [insertLe]
  | cons y ys ih =>
    rcases List.pairwise_cons.mp hl with ⟨hy, hys⟩
    by_cases h : lexLe y x = true
    · simp only [insertLe, h, if_true]
      refine List.pairwise_cons.mpr ⟨?_, ih hys⟩
      intro a ha
      rcases mem_insertLe.mp ha with rfl | ha2
      · exact h
      · exact hy a ha2
    · simp only [insertLe, h, if_false]
      refine List.pairwise_cons.mpr ⟨?_, hl⟩
      intro a ha
      have hx : lexLe x y = true := by
        rcases lexLe_total x y with h2 | h2
        · exact h2
        · exact absurd h2 (by simpa using h)
      rcases List.mem_cons.mp ha with rfl | ha2
      · exact hx
      · exact lexLe_trans hx (hy a ha2)

theorem pairwise_sortLe (l : List Str) :
    (sortLe l).Pairwise (fun a b => lexLe a b = true) := by
  induction l with
  | nil => simp [sortLe]
  | cons y ys ih => exact pairwise_insertLe ih

theorem lexLe_append_same (p a b : Str) : lexLe (p ++ a) (p ++ b) = lexLe a b := by
  induction p with
  | nil => rfl
  | cons c cs ih => simp [lexLe, ih]

theorem jIsStr_iff (v : Option Json) (lit : Str) :
    jIsStr v lit = true ↔ v = some (Json.str lit) := by
  cases v with
  | none => simp [jIsStr]
  | some j => cases j <;> simp [jIsStr]

/-- C5: `is_text_message m` is true exactly when `m` is an object whose
`channel` field equals the string `"text"` and whose `signal` field is a
string (the empty string included); it is false for non-objects, wrong
channels and non-string signals (null, objects, arrays, numbers,
booleans). -/
theorem is_text_message_iff (m : Json) :
    is_text_message m = true ↔
      ∃ kvs, m = Json.obj kvs ∧
        jGet kvs "channel".data = some (Json.str "text".data) ∧
        ∃ s, jGet kvs "signal".data = some (Json.str s) := by
  cases m with
  | obj kvs =>
    simp only [is_text_message, Bool.and_eq_true, Json.obj.injEq, jIsStr_iff]
    constructor
    · rintro ⟨h1, h2⟩
      refine ⟨kvs, rfl, h1, ?_⟩
      cases hg : jGet kvs "signal".data with
      | none => rw [hg] at h2; simp at h2
      | some v =>
        cases v <;> rw [hg] at h2 <;> simp at h2
        case str s => exact ⟨s, rfl⟩
    · rintro ⟨kvs2, heq, h1, s, h2⟩
      cases heq
      exact ⟨h1, by rw [h2]⟩
  | null =>
    exact ⟨fun h => Bool.noConfusion h, fun ⟨kvs, h, _⟩ => Json.noConfusion h⟩
  | bool b =>
    exact ⟨fun h => Bool.noConfusion h, fun ⟨kvs, h, _⟩ => Json.noConfusion h⟩
  | num n =>
    exact ⟨fun h => Bool.noConfusion h, fun ⟨kvs, h, _⟩ => Json.noConfusion h⟩
  | str s =>
    exact ⟨fun h => Bool.noConfusion h, fun ⟨kvs, h, _⟩ => Json.noConfusion h⟩
  | arr xs =>
    exact ⟨fun h => Bool.noConfusion h, fun ⟨kvs, h, _⟩ => Json.noConfusion h⟩

/-- C10: the two settings treat an empty-string configured value
asymmetrically: an empty configured channel (with no channel directive)
resolves to the default `"output"`, while an empty configured outbox
resolves to the empty string itself; only an absent (`None`) configured
outbox yields the default `"OUTBOX"`. -/
theorem empty_config_asymmetry :
    (∀ (cfg : Config) (tab : Option Tab), cfg.channel = some [] →
        (∀ t, tab = some t → t.directives.channel = none) →
        _effective_channel cfg tab = "output".data) ∧
    (∀ (cfg : Config) (tab : Option Tab), cfg.outbox = some [] →
        (∀ t, tab = some t → t.directives.outbox = none) →
        _effective_outbox cfg tab = []) ∧
    (∀ (cfg : Config) (tab : Option Tab), cfg.outbox = none →
        (∀ t, tab = some t → t.directives.outbox = none) →
        _effective_outbox cfg tab = "OUTBOX".data) ∧
    ([] : Str) ≠ "OUTBOX".data := by
  refine ⟨?_, ?_, ?_, by decide⟩
  · intro cfg tab hc hnd
    cases tab with
    | none => simp [_effective_channel, hc]
    | some t => simp [_effective_channel, hc, hnd t rfl]
  · intro cfg tab hc hnd
    cases tab with
    | none => simp [_effective_outbox, hc]
    | some t => simp [_effective_outbox, hc, hnd t rfl]
  · intro cfg tab hc hnd
    cases tab with
    | none => simp [_effective_outbox, hc]
    | some t => simp [_effective_outbox, hc, hnd t rfl]

theorem empty_config_asymmetry_witness :
    _effective_channel { channel := some [] } (some ⟨{}⟩) = "output".data ∧
    _effective_outbox { outbox := some [] } (some ⟨{}⟩) = [] ∧
    _effective_outbox {} none = "OUTBOX".data :=
  ⟨empty_config_asymmetry.1 { channel := some [] } (some ⟨{}⟩) rfl
      (fun t ht => by cases ht; rfl),
   empty_config_asymmetry.2.1 { outbox := some [] } (some ⟨{}⟩) rfl
      (fun t ht => by cases ht; rfl),
   empty_config_asymmetry.2.2.1 {} none rfl (fun t ht => by cases ht)⟩

/-- C1 counterexample: with both a configured channel and a channel
directive present (and likewise for outbox), the DSL directive wins, so the
claimed precedence "configured value beats directive" is false. -/
theorem resolution_config_loses_to_directive :
    _effective_channel { channel := some "cfg".data }
        (some ⟨{ channel := some "dsl".data }⟩) = "dsl".data ∧
    "dsl".data ≠ "cfg".data ∧
    _effective_outbox { outbox := some "cfgbox".data }
        (some ⟨{ outbox := some "dslbox".data }⟩) = "dslbox".data ∧
    "dslbox".data ≠ "cfgbox".data :=
  ⟨rfl, by decide, rfl, by decide⟩

/-- C1 (amended): both settings resolve with precedence DSL directive
(highest, when present and non-empty) > configured value (for channel when
non-empty; for outbox whenever not `None`) > built-in default (`"output"`
for channel, `"OUTBOX"` for outbox). -/
theorem resolution_precedence_amended :
    (∀ (cfg : Config) (t : Tab) (v : Str), t.directives.channel = some v → v ≠ [] →
        _effective_channel cfg (some t) = v) ∧
    (∀ (cfg : Config) (tab : Option Tab) (c : Str),
        (∀ t, tab = some t → t.directives.channel = none) →
        cfg.channel = some c → c ≠ [] →
        _effective_channel cfg tab = c) ∧
    (∀ (cfg : Config) (tab : Option Tab),
        (∀ t, tab = some t → t.directives.channel = none) →
        cfg.channel = none →
        _effective_channel cfg tab = "output".data) ∧
    (∀ (cfg : Config) (t : Tab) (v : Str), t.directives.outbox = some v → v ≠ [] →
        _effective_outbox cfg (some t) = v) ∧
    (∀ (cfg : Config) (tab : Option Tab) (c : Str),
        (∀ t, tab = some t → t.directives.outbox = none) →
        cfg.outbox = some c →
        _effective_outbox cfg tab = c) ∧
    (∀ (cfg : Config) (tab : Option Tab),
        (∀ t, tab = some t → t.directives.outbox = none) →
        cfg.outbox = none →
        _effective_outbox cfg tab = "OUTBOX".data) := by
  refine ⟨?_, ?_, ?_, ?_, ?_, ?_⟩
  · intro cfg t v hv hne
    simp [_effective_channel, hv, List.isEmpty_iff, hne]
  · intro cfg tab c hnd hc hne
    cases tab with
    | none => simp [_effective_channel, hc, List.isEmpty_iff, hne]
    | some t => simp [_effective_channel, hc, hnd t rfl, List.isEmpty_iff, hne]
  · intro cfg tab hnd hc
    cases tab with
    | none => simp [_effective_channel, hc]
    | some t => simp [_effective_channel, hc, hnd t rfl]
  · intro cfg t v hv hne
    simp [_effective_outbox, hv, List.isEmpty_iff, hne]
  · intro cfg tab c hnd hc
    cases tab with
    | none => simp [_effective_outbox, hc]
    | some t => simp [_effective_outbox, hc, hnd t rfl]
  · intro cfg tab hnd hc
    cases tab with
    | none => simp [_effective_outbox, hc]
    | some t => simp [_effective_outbox, hc, hnd t rfl]

theorem resolution_precedence_amended_witness :
    _effective_channel { channel := some "cfg".data }
        (some ⟨{ channel := some "dsl".data }⟩) = "dsl".data ∧
    _effective_channel { channel := some "cfg".data } none = "cfg".data ∧
    _effective_channel {} none = "output".data ∧
    _effective_outbox { outbox := some "box".data } none = "box".data ∧
    _effective_outbox {} none = "OUTBOX".data :=
  ⟨resolution_precedence_amended.1 _ ⟨{ channel := some "dsl".data }⟩ _ rfl (by decide),
   resolution_precedence_amended.2.1 _ none _ (fun t ht => by cases ht) rfl (by decide),
   resolution_precedence_amended.2.2.1 _ none (fun t ht => by cases ht) rfl,
   resolution_precedence_amended.2.2.2.2.1 _ none _ (fun t ht => by cases ht) rfl,
   resolution_precedence_amended.2.2.2.2.2 _ none (fun t ht => by cases ht) rfl⟩

theorem scanAccept_some_iff (path : Str) (w : InboxWorld) (fn p : Str) (j : Json) :
    scanAccept path w fn = some (p, j) ↔
      endsSeq ".json".data fn = true ∧
      ∃ kvs, w.readJson fn = some (Json.obj kvs) ∧ p = pathJoin path fn ∧ j = Json.obj kvs := by
  unfold scanAccept
  by_cases he : endsSeq ".json".data fn = true
  · simp only [he, Bool.not_true, Bool.false_eq_true, if_false, true_and]
    cases hr : w.readJson fn with
    | none => simp
    | some v =>
      cases v with
      | obj kvs =>
        simp only [Option.some.injEq, Prod.mk.injEq, Json.obj.injEq]
        constructor
        · rintro ⟨h1, h2⟩; exact ⟨kvs, rfl, h1.symm, h2.symm⟩
        · rintro ⟨kvs2, hk, h1, h2⟩
          cases hk
          exact ⟨h1.symm, h2.symm⟩
      | null => simp
      | bool b => simp
      | num n => simp
      | str s => simp
      | arr xs => simp
  · have he2 : endsSeq ".json".data fn = false := by simpa using he
    simp [he2]

/-- C4: `scan_inbox` returns the empty sequence when the directory does not
exist or cannot be listed; an entry appears in the result exactly when its
name ends in `.json` and it reads and parses as a JSON object (unreadable,
unparseable and non-object entries are skipped without any error, and the
function performs no writes); each accepted entry yields its path paired
with the parsed object; and results appear in lexicographic path (hence
filename) order. -/
theorem scan_inbox_spec :
    (∀ (path : Str) (w : InboxWorld), w.isdir = false → scan_inbox path w = []) ∧
    (∀ (path : Str) (w : InboxWorld), w.listing = none → scan_inbox path w = []) ∧
    (∀ (path : Str) (w : InboxWorld) (entries : List Str),
       w.isdir = true → w.listing = some entries →
       ∀ (p : Str) (j : Json), ((p, j) ∈ scan_inbox path w ↔
         ∃ fn, fn ∈ entries ∧ endsSeq ".json".data fn = true ∧
           ∃ kvs, w.readJson fn = some (Json.obj kvs) ∧ p = pathJoin path fn ∧
             j = Json.obj kvs)) ∧
    (∀ (path : Str) (w : InboxWorld),
       (scan_inbox path w).Pairwise (fun a b => lexLe a.1 b.1 = true)) := by
  refine ⟨?_, ?_, ?_, ?_⟩
  · intro path w h; simp [scan_inbox, h]
  · intro path w h; simp [scan_inbox, h]
  · intro path w entries hd hl p j
    simp only [scan_inbox, hd, Bool.not_true, Bool.false_eq_true, if_false, hl]
    rw [List.mem_filterMap]
    constructor
    · rintro ⟨fn, hmem, hacc⟩
      rcases (scanAccept_some_iff path w fn p j).mp hacc with ⟨he, kvs, hr, hp, hj⟩
      exact ⟨fn, mem_sortLe.mp hmem, he, kvs, hr, hp, hj⟩
    · rintro ⟨fn, hmem, he, kvs, hr, hp, hj⟩
      exact ⟨fn, mem_sortLe.mpr hmem,
        (scanAccept_some_iff path w fn p j).mpr ⟨he, kvs, hr, hp, hj⟩⟩
  · intro path w
    by_cases hd : w.isdir = true
    · cases hl : w.listing with
      | none => simp [scan_inbox, hd, hl]
      | some entries =>
        simp only [scan_inbox, hd, Bool.not_true, Bool.false_eq_true, if_false, hl]
        rw [List.pairwise_filterMap]
        refine (pairwise_sortLe entries).imp ?_
        intro fn1 fn2 hle x hx y hy
        rcases x with ⟨p1, j1⟩
        rcases y with ⟨p2, j2⟩
        rcases (scanAccept_some_iff path w fn1 p1 j1).mp hx with ⟨_, _, _, hp1, _⟩
        rcases (scanAccept_some_iff path w fn2 p2 j2).mp hy with ⟨_, _, _, hp2, _⟩
        subst hp1
        subst hp2
        show lexLe (pathJoin path fn1) (pathJoin path fn2) = true
        unfold pathJoin
        have h1 : path ++ '/' :: fn1 = (path ++ ['/']) ++ fn1 := by simp
        have h2 : path ++ '/' :: fn2 = (path ++ ['/']) ++ fn2 := by simp
        rw [h1, h2, lexLe_append_same]
        exact hle
    · have hd2 : w.isdir = false := by simpa using hd
      simp [scan_inbox, hd2]

theorem scan_inbox_spec_witness :
    scan_inbox "IN".data ⟨false, some [], fun _ => none⟩ = [] ∧
    scan_inbox "IN".data ⟨true, none, fun _ => none⟩ = [] ∧
    (("IN/a.json".data, Json.obj [("x".data, Json.num 1)]) ∈
      scan_inbox "IN".data ⟨true, some ["a.json".data],
        fun _ => some (Json.obj [("x".data, Json.num 1)])⟩) ∧
    (scan_inbox "IN".data ⟨true, some ["b.json".data, "a.json".data],
        fun _ => some (Json.obj [])⟩).Pairwise (fun a b => lexLe a.1 b.1 = true) :=
  ⟨scan_inbox_spec.1 "IN".data ⟨false, some [], fun _ => none⟩ rfl,
   scan_inbox_spec.2.1 "IN".data ⟨true, none, fun _ => none⟩ rfl,
   (scan_inbox_spec.2.2.1 "IN".data ⟨true, some ["a.json".data],
        fun _ => some (Json.obj [("x".data, Json.num 1)])⟩ ["a.json".data] rfl rfl
        "IN/a.json".data (Json.obj [("x".data, Json.num 1)])).mpr
     ⟨"a.json".data, by simp, by decide, [("x".data, Json.num 1)], rfl, by decide, rfl⟩,
   scan_inbox_spec.2.2.2 "IN".data ⟨true, some ["b.json".data, "a.json".data],
        fun _ => some (Json.obj [])⟩⟩

/-- C8: when the outbox directory cannot be created, `emit_message` produces
an `EmitError` naming the directory and creates no file; and any failed emit
leaves either no new file (failure before the write) or the single target
file holding a prefix of the correct serialized envelope (failure during the
one write), never a file with corrupt content. -/
theorem emit_failure_spec :
    (∀ (signal : Json) (channel outbox : Str) (w : EmitWorld), w.mkdirFails = true →
       ∃ e, emit_message signal channel outbox w = (Except.error e, w.files) ∧
            occursIn outbox e = true) ∧
    (∀ (signal : Json) (channel outbox : Str) (w : EmitWorld) (e : Str),
       (emit_message signal channel outbox w).1 = Except.error e →
       (emit_message signal channel outbox w).2 = w.files ∨
       ∃ k, (emit_message signal channel outbox w).2 =
         w.files ++ [(w.uuid ++ ".json".data,
            ((build_message signal channel w).dumpChars ++ ['\n']).take k)]) := by
  constructor
  · intro signal channel outbox w hmk
    refine ⟨"Cannot create OUTBOX directory '".data ++ outbox ++ "': ".data ++ w.mkdirErr,
      ?_, ?_⟩
    · simp [emit_message, write_message, hmk]
    · have : "Cannot create OUTBOX directory '".data ++ outbox ++ "': ".data ++ w.mkdirErr
          = "Cannot create OUTBOX directory '".data ++ (outbox ++ ("': ".data ++ w.mkdirErr)) := by
        simp [List.append_assoc]
      rw [this]
      exact occursIn_mid _ _ _
  · intro signal channel outbox w e herr
    by_cases hmk : w.mkdirFails = true
    · left; simp [emit_message, write_message, hmk]
    · have hmk2 : w.mkdirFails = false := by simpa using hmk
      cases hwi : w.writeInterrupt with
      | none => simp [emit_message, write_message, hmk2, hwi] at herr
      | some k =>
        right
        exact ⟨k, by simp [emit_message, write_message, hmk2, hwi]⟩

theorem emit_failure_spec_witness :
    (∃ e, emit_message (Json.obj []) "ch".data "OUT".data
        ⟨"u".data, "1".data, true, none, "err".data, [], []⟩ =
          (Except.error e, []) ∧ occursIn "OUT".data e = true) ∧
    ((emit_message (Json.obj []) "ch".data "OUT".data
        ⟨"u".data, "1".data, false, some 0, [], "werr".data, []⟩).2 = [] ∨
     ∃ k, (emit_message (Json.obj []) "ch".data "OUT".data
        ⟨"u".data, "1".data, false, some 0, [], "werr".data, []⟩).2 =
       [] ++ [("u".data ++ ".json".data,
          ((build_message (Json.obj []) "ch".data
              ⟨"u".data, "1".data, false, some 0, [], "werr".data, []⟩).dumpChars
            ++ ['\n']).take k)]) :=
  ⟨emit_failure_spec.1 (Json.obj []) "ch".data "OUT".data
      ⟨"u".data, "1".data, true, none, "err".data, [], []⟩ rfl,
   emit_failure_spec.2 (Json.obj []) "ch".data "OUT".data
      ⟨"u".data, "1".data, false, some 0, [], "werr".data, []⟩
      ("Cannot write file '".data ++ "OUT".data ++ '/' :: ("u".data ++ ".json".data) ++
        "': ".data ++ "werr".data) rfl⟩

/-! ### Decimal rendering round-trip lemmas -/

theorem digitChar_toNat {d : Nat} (h : d < 10) : (digitChar d).toNat = 48 + d := by
  interval_cases d <;> decide

theorem isDigitChar_digitChar {d : Nat} (h : d < 10) : isDigitChar (digitChar d) = true := by
  interval_cases d <;> decide

theorem digitVal_digitChar {d : Nat} (h : d < 10) : digitVal (digitChar d) = d := by
  interval_cases d <;> decide

theorem natDigitsRev_all_lt (fuel n : Nat) : ∀ d ∈ natDigitsRev fuel n, d < 10 := by
  induction fuel generalizing n with
  | zero => simp [natDigitsRev]
  | succ f ih =>
    intro d hd
    rw [natDigitsRev] at hd
    by_cases h : n < 10
    · simp [h] at hd; omega
    · simp [h] at hd
      rcases hd with rfl | hd
      · omega
      · exact ih (n / 10) d hd

theorem natDigitsRev_ne_nil (f n : Nat) : natDigitsRev (f + 1) n ≠ [] := by
  rw [natDigitsRev]
  by_cases h : n < 10 <;> simp [h]

theorem natDigitsRev_val (fuel n : Nat) (h : n ≤ fuel) :
    valOfDigits (natDigitsRev fuel n).reverse = n := by
  induction fuel generalizing n with
  | zero =>
    have : n = 0 := by omega
    subst this
    rfl
  | succ f ih =>
    rw [natDigitsRev]
    by_cases hn : n < 10
    · simp [hn, valOfDigits, List.foldl]
    · simp only [hn, if_false, List.reverse_cons]
      unfold valOfDigits
      rw [List.foldl_append]
      have hdiv : n / 10 ≤ f := by omega
      have := ih (n / 10) hdiv
      unfold valOfDigits at this
      rw [this]
      simp [List.foldl]
      omega

theorem natDigitsRev_getLast_ne_zero (fuel n : Nat) (hle : n ≤ fuel) (hn : n ≠ 0) :
    ∀ d, (natDigitsRev fuel n).getLast? = some d → d ≠ 0 := by
  induction fuel generalizing n with
  | zero => omega
  | succ f ih =>
    intro d hd
    rw [natDigitsRev] at hd
    by_cases h : n < 10
    · simp [h] at hd
      omega
    · simp only [h, if_false] at hd
      have hf : ∃ f2, f = f2 + 1 := ⟨f - 1, by omega⟩
      rcases hf with ⟨f2, rfl⟩
      cases hl : natDigitsRev (f2 + 1) (n / 10) with
      | nil => exact absurd hl (natDigitsRev_ne_nil f2 (n / 10))
      | cons a l2 =>
        rw [hl, List.getLast?_cons_cons] at hd
        exact ih (n / 10) (by omega) (by omega) d (by rw [hl]; exact hd)

theorem natToChars_ne_nil (n : Nat) : natToChars n ≠ [] := by
  have hlen : (natToChars n).length = (natDigitsRev (n + 1) n).length := by
    simp [natToChars]
  intro hcon
  cases h2 : natDigitsRev (n + 1) n with
  | nil => exact absurd h2 (natDigitsRev_ne_nil n n)
  | cons a l2 =>
    rw [hcon, h2] at hlen
    simp at hlen

theorem natToChars_all_digits (n : Nat) : ∀ c ∈ natToChars n, isDigitChar c = true := by
  intro c hc
  unfold natToChars at hc
  rw [List.mem_map] at hc
  rcases hc with ⟨d, hd, rfl⟩
  rw [List.mem_reverse] at hd
  exact isDigitChar_digitChar (natDigitsRev_all_lt _ _ d hd)

theorem natToChars_head_structure (n : Nat) :
    ∃ c t, natToChars n = c :: t ∧ isDigitChar c = true := by
  cases h : natToChars n with
  | nil => exact absurd h (natToChars_ne_nil n)
  | cons c t =>
    refine ⟨c, t, rfl, ?_⟩
    exact natToChars_all_digits n c (h ▸ List.mem_cons_self c t)

theorem natToChars_zero : natToChars 0 = ['0'] := rfl

theorem natToChars_head_ne_zero {n : Nat} (hn : n ≠ 0) (t : Str) :
    natToChars n ≠ '0' :: t := by
  intro h
  unfold natToChars at h
  have hhd : ((natDigitsRev (n + 1) n).reverse.map digitChar).head? = some '0' := by
    rw [h]; rfl
  rw [List.head?_map, List.head?_reverse] at hhd
  cases hg : (natDigitsRev (n + 1) n).getLast? with
  | none =>
    rw [hg] at hhd
    exact Option.noConfusion hhd
  | some d =>
    rw [hg] at hhd
    have hhd2 : digitChar d = '0' :=
      Option.some.inj (show some (digitChar d) = some '0' from hhd)
    have hd10 : d < 10 := by
      have hmem : d ∈ natDigitsRev (n + 1) n := by
        rcases List.mem_getLast?_eq_getLast (l := natDigitsRev (n + 1) n) (x := d)
            (by simp [hg]) with ⟨hne, heq⟩
        rw [heq]
        exact List.getLast_mem hne
      exact natDigitsRev_all_lt _ _ d hmem
    have : d ≠ 0 := natDigitsRev_getLast_ne_zero (n + 1) n (by omega) hn d hg
    have htn : (digitChar d).toNat = 48 + d := digitChar_toNat hd10
    rw [hhd2] at htn
    simp at htn
    omega

theorem munchAux_spec : ∀ (ds : List Nat) (acc : Nat), (∀ d ∈ ds, d < 10) →
    ∀ (rest : Str), headNotDigit rest = true →
    munchDigits.munchDigitsAux acc (ds.map digitChar ++ rest) =
      (ds.foldl (fun a d => a * 10 + d) acc, rest) := by
  intro ds
  induction ds with
  | nil =>
    intro acc hds rest hrest
    cases rest with
    | nil => rfl
    | cons c t =>
      have hc : isDigitChar c = false := by simpa [headNotDigit] using hrest
      simp [munchDigits.munchDigitsAux, hc]
  | cons d ds ih =>
    intro acc hds rest hrest
    have hd : d < 10 := hds d (List.mem_cons_self d ds)
    simp only [List.map_cons, List.cons_append, munchDigits.munchDigitsAux,
      isDigitChar_digitChar hd, if_true, digitVal_digitChar hd, List.foldl_cons]
    exact ih (acc * 10 + d) (fun x hx => hds x (List.mem_cons_of_mem d hx)) rest hrest

theorem munchDigits_natToChars (n : Nat) (rest : Str) (hrest : headNotDigit rest = true) :
    munchDigits (natToChars n ++ rest) = some (n, rest) := by
  rcases natToChars_head_structure n with ⟨c, t, hct, hdig⟩
  have hds : ∀ d ∈ (natDigitsRev (n + 1) n).reverse, d < 10 := by
    intro d hd
    rw [List.mem_reverse] at hd
    exact natDigitsRev_all_lt _ _ d hd
  have hval : ((natDigitsRev (n + 1) n).reverse).foldl (fun a d => a * 10 + d) 0 = n :=
    natDigitsRev_val (n + 1) n (by omega)
  have hmain : munchDigits.munchDigitsAux 0 (natToChars n ++ rest) = (n, rest) := by
    unfold natToChars
    rw [munchAux_spec _ 0 hds rest hrest, hval]
  rw [hct] at hmain ⊢
  simp only [List.cons_append] at hmain ⊢
  unfold munchDigits
  simp [hdig, hmain]

theorem numDelim_cons_parts {c : Char} {t : Str} (h : numDelim (c :: t) = true) :
    isDigitChar c = false ∧ c ≠ '.' ∧ c ≠ 'e' ∧ c ≠ 'E' := by
  by_cases h1 : isDigitChar c = true
  · rw [show numDelim (c :: t) = !(isDigitChar c || c = '.' || c = 'e' || c = 'E') from rfl,
      h1] at h
    simp at h
  · by_cases h2 : c = '.'
    · rw [show numDelim (c :: t) = !(isDigitChar c || c = '.' || c = 'e' || c = 'E') from rfl] at h
      simp [h2] at h
    · by_cases h3 : c = 'e'
      · rw [show numDelim (c :: t) = !(isDigitChar c || c = '.' || c = 'e' || c = 'E') from rfl] at h
        simp [h3] at h
      · by_cases h4 : c = 'E'
        · rw [show numDelim (c :: t) = !(isDigitChar c || c = '.' || c = 'e' || c = 'E') from rfl] at h
          simp [h4] at h
        · exact ⟨by simpa using h1, h2, h3, h4⟩

theorem numDelim_headNotDigit {rest : Str} (h : numDelim rest = true) :
    headNotDigit rest = true := by
  cases rest with
  | nil => rfl
  | cons c t =>
    have := (numDelim_cons_parts h).1
    simp [headNotDigit, this]

theorem numTailOk_of_numDelim (n : Nat) {rest : Str} (h : numDelim rest = true) :
    parseNumMag.numTailOk n rest = some (n, rest) := by
  cases rest with
  | nil => rfl
  | cons c t =>
    rcases numDelim_cons_parts h with ⟨h1, h2, h3, h4⟩
    simp [parseNumMag.numTailOk, h1, h2, h3, h4]

theorem parseNumMag_natToChars (n : Nat) (rest : Str) (hd : numDelim rest = true) :
    parseNumMag (natToChars n ++ rest) = some (n, rest) := by
  by_cases hn : n = 0
  · subst hn
    rw [natToChars_zero]
    simp only [List.cons_append, List.nil_append]
    unfold parseNumMag
    simp only [show isDigitChar '0' = true from rfl, if_true, reduceIte]
    exact numTailOk_of_numDelim 0 hd
  · rcases natToChars_head_structure n with ⟨c, t, hct, hdig⟩
    have hc0 : c ≠ '0' := by
      intro h
      subst h
      exact natToChars_head_ne_zero hn t hct
    rw [hct]
    simp only [List.cons_append]
    unfold parseNumMag
    simp only [hdig, if_true, hc0, if_false, reduceIte]
    have hm : munchDigits (c :: (t ++ rest)) = some (n, rest) := by
      have := munchDigits_natToChars n rest (numDelim_headNotDigit hd)
      rw [hct] at this
      simpa using this
    rw [hm]
    exact numTailOk_of_numDelim n hd

theorem parseNumber_intToChars (i : Int) (rest : Str) (hd : numDelim rest = true) :
    parseNumber (intToChars i ++ rest) = some (i, rest) := by
  by_cases hi : i < 0
  · have heq : intToChars i = '-' :: natToChars i.natAbs := by
      unfold intToChars
      simp [hi]
    rw [heq]
    simp only [List.cons_append]
    unfold parseNumber
    split
    · rename_i r heq2
      injection heq2 with hh ht
      subst ht
      rw [parseNumMag_natToChars i.natAbs rest hd]
      have hcast : -((i.natAbs : Nat) : Int) = i := by omega
      show some (-((i.natAbs : Nat) : Int), rest) = some (i, rest)
      rw [hcast]
    · rename_i hne
      exact absurd rfl (hne (natToChars i.natAbs ++ rest))
  · have hcast : ((i.natAbs : Nat) : Int) = i := by omega
    have heq : intToChars i = natToChars i.natAbs := by
      unfold intToChars
      simp [hi]
    rw [heq]
    rcases natToChars_head_structure i.natAbs with ⟨c, t, hct, hdig⟩
    rw [hct]
    simp only [List.cons_append]
    have hcm : c ≠ '-' := by
      intro h
      subst h
      simp [isDigitChar] at hdig
    unfold parseNumber
    split
    · rename_i r heq2
      rw [List.cons.injEq] at heq2
      exact absurd heq2.1 hcm
    · have hm : parseNumMag (c :: (t ++ rest)) = some (i.natAbs, rest) := by
        have := parseNumMag_natToChars i.natAbs rest hd
        rw [hct] at this
        simpa using this
      rw [hm]
      show some (((i.natAbs : Nat) : Int), rest) = some (i, rest)
      rw [hcast]

/-! ### String-literal serialization round-trip -/

theorem hexVal_hexDigit {d : Nat} (h : d < 16) : hexVal (hexDigit d) = some d := by
  interval_cases d <;> decide

theorem char_ofNat_toNat {c : Char} (h : c.toNat < 55296) : Char.ofNat c.toNat = c := by
  have hval : c.toNat.isValidChar := by
    left
    exact h
  apply Char.ext
  simp [Char.ofNat, hval]
  rfl

theorem parseStringBody_escape : ∀ (s : Str) (fuel : Nat) (rest : Str), s.length < fuel →
    parseStringBody fuel ((s.map escapeChar).flatten ++ ('"' :: rest)) = some (s, rest) := by
  intro s
  induction s with
  | nil =>
    intro fuel rest hf
    cases fuel with
    | zero => omega
    | succ f =>
      simp only [List.map_nil, List.flatten_nil, List.nil_append]
      simp only [parseStringBody, reduceIte]
  | cons c tl ih =>
    intro fuel rest hf
    cases fuel with
    | zero => simp at hf
    | succ f =>
      have hih := ih f rest (by simp at hf; omega)
      simp only [List.map_cons, List.flatten_cons, List.append_assoc]
      by_cases h1 : c = '"'
      · rw [show escapeChar c = ['\\', '"'] from by rw [h1]; decide]
        simp only [List.cons_append, List.nil_append]
        simp only [parseStringBody, Char.reduceEq, reduceIte, parseEscape, escUnmap]
        rw [hih, h1]
      · by_cases h2 : c = '\\'
        · rw [show escapeChar c = ['\\', '\\'] from by rw [h2]; decide]
          simp only [List.cons_append, List.nil_append]
          simp only [parseStringBody, Char.reduceEq, reduceIte, parseEscape, escUnmap]
          rw [hih, h2]
        · by_cases h3 : c = '\n'
          · rw [show escapeChar c = ['\\', 'n'] from by rw [h3]; decide]
            simp only [List.cons_append, List.nil_append]
            simp only [parseStringBody, Char.reduceEq, reduceIte, parseEscape, escUnmap]
            rw [hih, h3]
          · by_cases h4 : c = '\r'
            · rw [show escapeChar c = ['\\', 'r'] from by rw [h4]; decide]
              simp only [List.cons_append, List.nil_append]
              simp only [parseStringBody, Char.reduceEq, reduceIte, parseEscape, escUnmap]
              rw [hih, h4]
            · by_cases h5 : c = '\t'
              · rw [show escapeChar c = ['\\', 't'] from by rw [h5]; decide]
                simp only [List.cons_append, List.nil_append]
                simp only [parseStringBody, Char.reduceEq, reduceIte, parseEscape, escUnmap]
                rw [hih, h5]
              · by_cases h6 : c = '\x08'
                · rw [show escapeChar c = ['\\', 'b'] from by rw [h6]; decide]
                  simp only [List.cons_append, List.nil_append]
                  simp only [parseStringBody, Char.reduceEq, reduceIte, parseEscape, escUnmap]
                  rw [hih, h6]
                · by_cases h7 : c = '\x0c'
                  · rw [show escapeChar c = ['\\', 'f'] from by rw [h7]; decide]
                    simp only [List.cons_append, List.nil_append]
                    simp only [parseStringBody, Char.reduceEq, reduceIte, parseEscape, escUnmap]
                    rw [hih, h7]
                  · by_cases h8 : c.toNat < 32
                    · rw [show escapeChar c =
                          ['\\', 'u', '0', '0', hexDigit (c.toNat / 16), hexDigit (c.toNat % 16)]
                        from by simp [escapeChar, h1, h2, h3, h4, h5, h6, h7, h8]]
                      simp only [List.cons_append, List.nil_append]
                      simp only [parseStringBody, Char.reduceEq, reduceIte, parseEscape]
                      simp only [parseUHex,
                        show hexVal '0' = some 0 from rfl,
                        hexVal_hexDigit (show c.toNat / 16 < 16 by omega),
                        hexVal_hexDigit (show c.toNat % 16 < 16 by omega)]
                      rw [show ((0 * 16 + 0) * 16 + c.toNat / 16) * 16 + c.toNat % 16 = c.toNat
                        from by omega]
                      rw [if_neg (show ¬(55296 ≤ c.toNat ∧ c.toNat ≤ 56319) from by omega)]
                      rw [if_neg (show ¬(56320 ≤ c.toNat ∧ c.toNat ≤ 57343) from by omega)]
                      rw [char_ofNat_toNat (show c.toNat < 55296 from by omega)]
                      show (match parseStringBody f
                              ((List.map escapeChar tl).flatten ++ '"' :: rest) with
                            | some (s2, r5) => some (c :: s2, r5)
                            | none => none) = some (c :: tl, rest)
                      rw [hih]
                    · rw [show escapeChar c = [c] from by
                        simp [escapeChar, h1, h2, h3, h4, h5, h6, h7, h8]]
                      simp only [List.cons_append, List.nil_append]
                      simp only [parseStringBody, h1, h2, h8, reduceIte, if_false]
                      rw [hih]

/-! ### Full serialization round-trip -/

theorem dropLit_append (p rest : Str) : dropLit p (p ++ rest) = some rest := by
  induction p with
  | nil => rfl
  | cons c cs ih => simp [dropLit, ih]

theorem skipWs_cons {c : Char} (l : Str) (h : isJsonWs c = false) :
    skipWs (c :: l) = c :: l := by
  simp [skipWs, List.dropWhile_cons, h]

theorem skipWs_cons_ws {c : Char} (l : Str) (h : isJsonWs c = true) :
    skipWs (c :: l) = skipWs l := by
  simp [skipWs, List.dropWhile_cons, h]

theorem parseVal_cons_ws (fuel : Nat) {c : Char} (h : isJsonWs c = true) (s : Str) :
    parseVal fuel (c :: s) = parseVal fuel s := by
  cases fuel with
  | zero => rfl
  | succ f =>
    rw [parseVal, parseVal, skipWs_cons_ws _ h]

theorem escapeChar_length_pos (c : Char) : 1 ≤ (escapeChar c).length := by
  unfold escapeChar
  split_ifs <;> simp

theorem escFlatten_length (s : Str) : s.length ≤ ((s.map escapeChar).flatten).length := by
  induction s with
  | nil => simp
  | cons c tl ih =>
    simp only [List.map_cons, List.flatten_cons, List.length_append, List.length_cons]
    have := escapeChar_length_pos c
    omega

theorem digit_not_special {c : Char} (hdig : isDigitChar c = true) :
    isJsonWs c = false ∧ c ≠ ']' ∧ c ≠ '}' ∧ c ≠ ',' := by
  have hn : 48 ≤ c.toNat ∧ c.toNat ≤ 57 := by
    simpa [isDigitChar] using hdig
  refine ⟨?_, ?_, ?_, ?_⟩
  · cases hw : isJsonWs c
    · rfl
    · exfalso
      simp only [isJsonWs, Bool.or_eq_true, decide_eq_true_eq] at hw
      rcases hw with ((h | h) | h) | h <;> subst h <;> exact absurd hn (by decide)
  · intro h; subst h; exact absurd hn (by decide)
  · intro h; subst h; exact absurd hn (by decide)
  · intro h; subst h; exact absurd hn (by decide)

theorem dump_head_ok (j : Json) :
    ∃ c t, Json.dumpChars j = c :: t ∧ isJsonWs c = false ∧ c ≠ ']' ∧ c ≠ '}' ∧ c ≠ ',' := by
  cases j with
  | null => exact ⟨'n', _, rfl, by decide, by decide, by decide, by decide⟩
  | bool b =>
    cases b with
    | true => exact ⟨'t', _, rfl, by decide, by decide, by decide, by decide⟩
    | false => exact ⟨'f', _, rfl, by decide, by decide, by decide, by decide⟩
  | num n =>
    by_cases hn : n < 0
    · refine ⟨'-', natToChars n.natAbs, ?_, by decide, by decide, by decide, by decide⟩
      show intToChars n = _
      unfold intToChars
      simp [hn]
    · rcases natToChars_head_structure n.natAbs with ⟨c, t, hct, hdig⟩
      rcases digit_not_special hdig with ⟨k1, k2, k3, k4⟩
      refine ⟨c, t, ?_, k1, k2, k3, k4⟩
      show intToChars n = _
      unfold intToChars
      simp [hn, hct]
  | str s => exact ⟨'"', _, rfl, by decide, by decide, by decide, by decide⟩
  | arr xs => exact ⟨'[', _, rfl, by decide, by decide, by decide, by decide⟩
  | obj xs => exact ⟨'{', _, rfl, by decide, by decide, by decide, by decide⟩

theorem numDelim_dumpArrTail (t : List Json) (rest : Str) :
    numDelim (Json.dumpArrTail t ++ (']' :: rest)) = true := by
  cases t with
  | nil => rfl
  | cons x t2 => rfl

theorem numDelim_dumpObjTail (t : List (Str × Json)) (rest : Str) :
    numDelim (Json.dumpObjTail t ++ ('}' :: rest)) = true := by
  cases t with
  | nil => rfl
  | cons m t2 => rcases m with ⟨k, v⟩; rfl

theorem digit_not_literal {c : Char} (hdig : isDigitChar c = true) :
    c ≠ '{' ∧ c ≠ '[' ∧ c ≠ '"' ∧ c ≠ 't' ∧ c ≠ 'f' ∧ c ≠ 'n' := by
  have hn : 48 ≤ c.toNat ∧ c.toNat ≤ 57 := by
    simpa [isDigitChar] using hdig
  refine ⟨?_, ?_, ?_, ?_, ?_, ?_⟩ <;>
    (intro h; subst h; exact absurd hn (by decide))

mutual

theorem parse_dump_val : ∀ (j : Json) (fuel : Nat) (rest : Str), Json.szV j ≤ fuel →
    numDelim rest = true → parseVal fuel (Json.dumpChars j ++ rest) = some (j, rest)
  | .null, fuel, rest => by
    intro hsz hnd
    cases fuel with
    | zero => simp [Json.szV] at hsz
    | succ f =>
      show parseVal (f + 1) ('n' :: ("ull".data ++ rest)) = some (.null, rest)
      rw [parseVal]
      rw [skipWs_cons _ (by decide)]
      simp only [reduceIte, Char.reduceEq]
      rw [dropLit_append]
      rfl
  | .bool true, fuel, rest => by
    intro hsz hnd
    cases fuel with
    | zero => simp [Json.szV] at hsz
    | succ f =>
      show parseVal (f + 1) ('t' :: ("rue".data ++ rest)) = some (.bool true, rest)
      rw [parseVal]
      rw [skipWs_cons _ (by decide)]
      simp only [reduceIte, Char.reduceEq]
      rw [dropLit_append]
      rfl
  | .bool false, fuel, rest => by
    intro hsz hnd
    cases fuel with
    | zero => simp [Json.szV] at hsz
    | succ f =>
      show parseVal (f + 1) ('f' :: ("alse".data ++ rest)) = some (.bool false, rest)
      rw [parseVal]
      rw [skipWs_cons _ (by decide)]
      simp only [reduceIte, Char.reduceEq]
      rw [dropLit_append]
      rfl
  | .num n, fuel, rest => by
    intro hsz hnd
    cases fuel with
    | zero => simp [Json.szV] at hsz
    | succ f =>
      show parseVal (f + 1) (intToChars n ++ rest) = some (.num n, rest)
      by_cases hneg : n < 0
      · have hct : intToChars n = '-' :: natToChars n.natAbs := by
          unfold intToChars
          simp [hneg]
        rw [hct]
        simp only [List.cons_append]
        rw [parseVal]
        rw [skipWs_cons _ (by decide)]
        simp only [reduceIte, Char.reduceEq]
        rw [show '-' :: (natToChars n.natAbs ++ rest) = intToChars n ++ rest from by
          rw [hct]; simp]
        rw [parseNumber_intToChars n rest hnd]
        rfl
      · have hform : intToChars n = natToChars n.natAbs := by
          unfold intToChars
          simp [hneg]
        rcases natToChars_head_structure n.natAbs with ⟨c, t2, hct, hdig⟩
        rcases digit_not_special hdig with ⟨hws, _, _, _⟩
        rcases digit_not_literal hdig with ⟨d1, d2, d3, d4, d5, d6⟩
        rw [hform, hct]
        simp only [List.cons_append]
        rw [parseVal]
        rw [skipWs_cons _ hws]
        show (if c = '{' then parseMembers f (t2 ++ rest)
              else if c = '[' then parseElems f (t2 ++ rest)
              else if c = '"' then
                match parseStringBody ((t2 ++ rest).length + 1) (t2 ++ rest) with
                | some (cs, r) => some (Json.str cs, r)
                | none => none
              else if c = 't' then
                Option.map (fun r => (Json.bool true, r)) (dropLit "rue".data (t2 ++ rest))
              else if c = 'f' then
                Option.map (fun r => (Json.bool false, r)) (dropLit "alse".data (t2 ++ rest))
              else if c = 'n' then
                Option.map (fun r => (Json.null, r)) (dropLit "ull".data (t2 ++ rest))
              else Option.map (fun p => (Json.num p.1, p.2)) (parseNumber (c :: (t2 ++ rest))))
            = some (Json.num n, rest)
        rw [if_neg d1, if_neg d2, if_neg d3, if_neg d4, if_neg d5, if_neg d6]
        rw [show c :: (t2 ++ rest) = intToChars n ++ rest from by
          rw [hform, hct]; simp]
        rw [parseNumber_intToChars n rest hnd]
        rfl
  | .str s, fuel, rest => by
    intro hsz hnd
    cases fuel with
    | zero => simp [Json.szV] at hsz
    | succ f =>
      show parseVal (f + 1)
          ('"' :: (((s.map escapeChar).flatten ++ ['"']) ++ rest)) = some (.str s, rest)
      rw [show ((s.map escapeChar).flatten ++ ['"']) ++ rest
          = (s.map escapeChar).flatten ++ ('"' :: rest) from by simp]
      rw [parseVal]
      rw [skipWs_cons _ (by decide)]
      simp only [reduceIte, Char.reduceEq]
      rw [parseStringBody_escape s _ rest (by
        have := escFlatten_length s
        simp only [List.length_append, List.length_cons]
        omega)]
  | .arr xs, fuel, rest => by
    intro hsz hnd
    cases fuel with
    | zero => simp [Json.szV] at hsz
    | succ f =>
      show parseVal (f + 1) (('[' :: Json.dumpArr xs ++ [']']) ++ rest) = some (.arr xs, rest)
      rw [show ('[' :: Json.dumpArr xs ++ [']']) ++ rest
          = '[' :: (Json.dumpArr xs ++ (']' :: rest)) from by simp]
      rw [parseVal]
      rw [skipWs_cons _ (by decide)]
      simp only [reduceIte, Char.reduceEq]
      exact parse_dump_elems xs f rest (by simp [Json.szV] at hsz; omega)
  | .obj xs, fuel, rest => by
    intro hsz hnd
    cases fuel with
    | zero => simp [Json.szV] at hsz
    | succ f =>
      show parseVal (f + 1) (('{' :: Json.dumpObj xs ++ ['}']) ++ rest) = some (.obj xs, rest)
      rw [show ('{' :: Json.dumpObj xs ++ ['}']) ++ rest
          = '{' :: (Json.dumpObj xs ++ ('}' :: rest)) from by simp]
      rw [parseVal]
      rw [skipWs_cons _ (by decide)]
      simp only [reduceIte, Char.reduceEq]
      exact parse_dump_members xs f rest (by simp [Json.szV] at hsz; omega)

theorem parse_dump_elems : ∀ (xs : List Json) (fuel : Nat) (rest : Str),
    Json.szE xs ≤ fuel →
    parseElems fuel (Json.dumpArr xs ++ (']' :: rest)) = some (Json.arr xs, rest)
  | [], fuel, rest => by
    intro hsz
    cases fuel with
    | zero => simp [Json.szE] at hsz
    | succ f =>
      show parseElems (f + 1) (']' :: rest) = some (Json.arr [], rest)
      rw [parseElems]
      rw [skipWs_cons _ (by decide)]
      rfl
  | x :: t, fuel, rest => by
    intro hsz
    cases fuel with
    | zero => simp [Json.szE] at hsz
    | succ f =>
      have hszx : Json.szV x ≤ f := by simp [Json.szE] at hsz; omega
      have hszt : Json.szT t ≤ f := by simp [Json.szE] at hsz; omega
      rcases dump_head_ok x with ⟨c, t2, hdump, hws, hbr, hbc, hcm⟩
      have hin : Json.dumpArr (x :: t) ++ (']' :: rest)
          = c :: (t2 ++ (Json.dumpArrTail t ++ (']' :: rest))) := by
        show (Json.dumpChars x ++ Json.dumpArrTail t) ++ (']' :: rest) = _
        rw [hdump]
        simp
      rw [hin, parseElems, skipWs_cons _ hws]
      split
      · rename_i r heq
        rw [List.cons.injEq] at heq
        exact absurd heq.1 hbr
      · rw [show c :: (t2 ++ (Json.dumpArrTail t ++ (']' :: rest)))
            = Json.dumpChars x ++ (Json.dumpArrTail t ++ (']' :: rest)) from by
          rw [hdump]; simp]
        rw [parse_dump_val x f _ hszx (numDelim_dumpArrTail t rest)]
        show (match parseElemsTail f (Json.dumpArrTail t ++ (']' :: rest)) with
              | some (Json.arr vs, r2) => some (Json.arr (x :: vs), r2)
              | _ => none) = some (Json.arr (x :: t), rest)
        rw [parse_dump_elemsTail t f rest hszt]

theorem parse_dump_elemsTail : ∀ (xs : List Json) (fuel : Nat) (rest : Str),
    Json.szT xs ≤ fuel →
    parseElemsTail fuel (Json.dumpArrTail xs ++ (']' :: rest)) = some (Json.arr xs, rest)
  | [], fuel, rest => by
    intro hsz
    cases fuel with
    | zero => simp [Json.szT] at hsz
    | succ f =>
      show parseElemsTail (f + 1) (']' :: rest) = some (Json.arr [], rest)
      rw [parseElemsTail]
      rw [skipWs_cons _ (by decide)]
      rfl
  | x :: t, fuel, rest => by
    intro hsz
    cases fuel with
    | zero => simp [Json.szT] at hsz
    | succ f =>
      have hszx : Json.szV x ≤ f := by simp [Json.szT] at hsz; omega
      have hszt : Json.szT t ≤ f := by simp [Json.szT] at hsz; omega
      show parseElemsTail (f + 1)
          (',' :: ' ' :: ((Json.dumpChars x ++ Json.dumpArrTail t) ++ (']' :: rest)))
          = some (Json.arr (x :: t), rest)
      rw [parseElemsTail]
      rw [skipWs_cons _ (by decide)]
      show (match parseVal f (' ' :: ((Json.dumpChars x ++ Json.dumpArrTail t) ++ (']' :: rest))) with
            | some (v, r) =>
              match parseElemsTail f r with
              | some (Json.arr vs, r2) => some (Json.arr (v :: vs), r2)
              | _ => none
            | none => none) = some (Json.arr (x :: t), rest)
      rw [parseVal_cons_ws f (by decide)]
      rw [show (Json.dumpChars x ++ Json.dumpArrTail t) ++ (']' :: rest)
          = Json.dumpChars x ++ (Json.dumpArrTail t ++ (']' :: rest)) from by simp]
      rw [parse_dump_val x f _ hszx (numDelim_dumpArrTail t rest)]
      show (match parseElemsTail f (Json.dumpArrTail t ++ (']' :: rest)) with
            | some (Json.arr vs, r2) => some (Json.arr (x :: vs), r2)
            | _ => none) = some (Json.arr (x :: t), rest)
      rw [parse_dump_elemsTail t f rest hszt]

theorem parse_dump_members : ∀ (xs : List (Str × Json)) (fuel : Nat) (rest : Str),
    Json.szM xs ≤ fuel →
    parseMembers fuel (Json.dumpObj xs ++ ('}' :: rest)) = some (Json.obj xs, rest)
  | [], fuel, rest => by
    intro hsz
    cases fuel with
    | zero => simp [Json.szM] at hsz
    | succ f =>
      show parseMembers (f + 1) ('}' :: rest) = some (Json.obj [], rest)
      rw [parseMembers]
      rw [skipWs_cons _ (by decide)]
      rfl
  | (k, v) :: t, fuel, rest => by
    intro hsz
    cases fuel with
    | zero => simp [Json.szM] at hsz
    | succ f =>
      have hszv : Json.szV v ≤ f := by simp [Json.szM] at hsz; omega
      have hszt : Json.szMT t ≤ f := by simp [Json.szM] at hsz; omega
      show parseMembers (f + 1)
          ((('"' :: ((k.map escapeChar).flatten ++ ['"']))
            ++ ':' :: ' ' :: (Json.dumpChars v ++ Json.dumpObjTail t)) ++ ('}' :: rest))
          = some (Json.obj ((k, v) :: t), rest)
      rw [show (('"' :: ((k.map escapeChar).flatten ++ ['"']))
            ++ ':' :: ' ' :: (Json.dumpChars v ++ Json.dumpObjTail t)) ++ ('}' :: rest)
          = '"' :: ((k.map escapeChar).flatten
              ++ ('"' :: ':' :: ' ' :: (Json.dumpChars v ++ (Json.dumpObjTail t ++ ('}' :: rest)))))
          from by simp]
      rw [parseMembers]
      rw [skipWs_cons _ (by decide)]
      show (match parseStringBody
              (((k.map escapeChar).flatten
                ++ ('"' :: ':' :: ' ' :: (Json.dumpChars v ++ (Json.dumpObjTail t ++ ('}' :: rest))))).length + 1)
              ((k.map escapeChar).flatten
                ++ ('"' :: ':' :: ' ' :: (Json.dumpChars v ++ (Json.dumpObjTail t ++ ('}' :: rest))))) with
            | some (k2, r) =>
              match skipWs r with
              | ':' :: r2 =>
                match parseVal f r2 with
                | some (v2, r3) =>
                  match parseMembersTail f r3 with
                  | some (Json.obj kvs, r4) => some (Json.obj ((k2, v2) :: kvs), r4)
                  | _ => none
                | none => none
              | _ => none
            | none => none) = some (Json.obj ((k, v) :: t), rest)
      rw [show ('"' :: ':' :: ' ' :: (Json.dumpChars v ++ (Json.dumpObjTail t ++ ('}' :: rest))))
          = '"' :: (':' :: ' ' :: (Json.dumpChars v ++ (Json.dumpObjTail t ++ ('}' :: rest)))) from rfl]
      rw [parseStringBody_escape k _ _ (by
        have := escFlatten_length k
        simp only [List.length_append, List.length_cons]
        omega)]
      show (match skipWs (':' :: ' ' :: (Json.dumpChars v ++ (Json.dumpObjTail t ++ ('}' :: rest)))) with
            | ':' :: r2 =>
              match parseVal f r2 with
              | some (v2, r3) =>
                match parseMembersTail f r3 with
                | some (Json.obj kvs, r4) => some (Json.obj ((k, v2) :: kvs), r4)
                | _ => none
              | none => none
            | _ => none) = some (Json.obj ((k, v) :: t), rest)
      rw [skipWs_cons _ (by decide)]
      show (match parseVal f (' ' :: (Json.dumpChars v ++ (Json.dumpObjTail t ++ ('}' :: rest)))) with
            | some (v2, r3) =>
              match parseMembersTail f r3 with
              | some (Json.obj kvs, r4) => some (Json.obj ((k, v2) :: kvs), r4)
              | _ => none
            | none => none) = some (Json.obj ((k, v) :: t), rest)
      rw [parseVal_cons_ws f (by decide)]
      rw [parse_dump_val v f _ hszv (numDelim_dumpObjTail t rest)]
      show (match parseMembersTail f (Json.dumpObjTail t ++ ('}' :: rest)) with
            | some (Json.obj kvs, r4) => some (Json.obj ((k, v) :: kvs), r4)
            | _ => none) = some (Json.obj ((k, v) :: t), rest)
      rw [parse_dump_membersTail t f rest hszt]

theorem parse_dump_membersTail : ∀ (xs : List (Str × Json)) (fuel : Nat) (rest : Str),
    Json.szMT xs ≤ fuel →
    parseMembersTail fuel (Json.dumpObjTail xs ++ ('}' :: rest)) = some (Json.obj xs, rest)
  | [], fuel, rest => by
    intro hsz
    cases fuel with
    | zero => simp [Json.szMT] at hsz
    | succ f =>
      show parseMembersTail (f + 1) ('}' :: rest) = some (Json.obj [], rest)
      rw [parseMembersTail]
      rw [skipWs_cons _ (by decide)]
      rfl
  | (k, v) :: t, fuel, rest => by
    intro hsz
    cases fuel with
    | zero => simp [Json.szMT] at hsz
    | succ f =>
      have hszv : Json.szV v ≤ f := by simp [Json.szMT] at hsz; omega
      have hszt : Json.szMT t ≤ f := by simp [Json.szMT] at hsz; omega
      show parseMembersTail (f + 1)
          ((',' :: ' ' :: (('"' :: ((k.map escapeChar).flatten ++ ['"']))
            ++ ':' :: ' ' :: (Json.dumpChars v ++ Json.dumpObjTail t))) ++ ('}' :: rest))
          = some (Json.obj ((k, v) :: t), rest)
      rw [show ((',' :: ' ' :: (('"' :: ((k.map escapeChar).flatten ++ ['"']))
            ++ ':' :: ' ' :: (Json.dumpChars v ++ Json.dumpObjTail t))) ++ ('}' :: rest))
          = ',' :: ' ' :: '"' :: ((k.map escapeChar).flatten
              ++ ('"' :: ':' :: ' ' :: (Json.dumpChars v ++ (Json.dumpObjTail t ++ ('}' :: rest)))))
          from by simp]
      rw [parseMembersTail]
      rw [skipWs_cons _ (by decide)]
      show (match skipWs (' ' :: '"' :: ((k.map escapeChar).flatten
              ++ ('"' :: ':' :: ' ' :: (Json.dumpChars v ++ (Json.dumpObjTail t ++ ('}' :: rest)))))) with
            | '"' :: r1 =>
              match parseStringBody (r1.length + 1) r1 with
              | some (k2, r) =>
                match skipWs r with
                | ':' :: r2 =>
                  match parseVal f r2 with
                  | some (v2, r3) =>
                    match parseMembersTail f r3 with
                    | some (Json.obj kvs, r4) => some (Json.obj ((k2, v2) :: kvs), r4)
                    | _ => none
                  | none => none
                | _ => none
              | none => none
            | _ => none) = some (Json.obj ((k, v) :: t), rest)
      rw [skipWs_cons_ws _ (by decide), skipWs_cons _ (by decide)]
      show (match parseStringBody
              (((k.map escapeChar).flatten
                ++ ('"' :: ':' :: ' ' :: (Json.dumpChars v ++ (Json.dumpObjTail t ++ ('}' :: rest))))).length + 1)
              ((k.map escapeChar).flatten
                ++ ('"' :: ':' :: ' ' :: (Json.dumpChars v ++ (Json.dumpObjTail t ++ ('}' :: rest))))) with
            | some (k2, r) =>
              match skipWs r with
              | ':' :: r2 =>
                match parseVal f r2 with
                | some (v2, r3) =>
                  match parseMembersTail f r3 with
                  | some (Json.obj kvs, r4) => some (Json.obj ((k2, v2) :: kvs), r4)
                  | _ => none
                | none => none
              | _ => none
            | none => none) = some (Json.obj ((k, v) :: t), rest)
      rw [parseStringBody_escape k _ _ (by
        have := escFlatten_length k
        simp only [List.length_append, List.length_cons]
        omega)]
      show (match skipWs (':' :: ' ' :: (Json.dumpChars v ++ (Json.dumpObjTail t ++ ('}' :: rest)))) with
            | ':' :: r2 =>
              match parseVal f r2 with
              | some (v2, r3) =>
                match parseMembersTail f r3 with
                | some (Json.obj kvs, r4) => some (Json.obj ((k, v2) :: kvs), r4)
                | _ => none
              | none => none
            | _ => none) = some (Json.obj ((k, v) :: t), rest)
      rw [skipWs_cons _ (by decide)]
      show (match parseVal f (' ' :: (Json.dumpChars v ++ (Json.dumpObjTail t ++ ('}' :: rest)))) with
            | some (v2, r3) =>
              match parseMembersTail f r3 with
              | some (Json.obj kvs, r4) => some (Json.obj ((k, v2) :: kvs), r4)
              | _ => none
            | none => none) = some (Json.obj ((k, v) :: t), rest)
      rw [parseVal_cons_ws f (by decide)]
      rw [parse_dump_val v f _ hszv (numDelim_dumpObjTail t rest)]
      show (match parseMembersTail f (Json.dumpObjTail t ++ ('}' :: rest)) with
            | some (Json.obj kvs, r4) => some (Json.obj ((k, v) :: kvs), r4)
            | _ => none) = some (Json.obj ((k, v) :: t), rest)
      rw [parse_dump_membersTail t f rest hszt]

end

theorem intToChars_ne_nil (i : Int) : intToChars i ≠ [] := by
  unfold intToChars
  by_cases h : i < 0
  · simp [h]
  · simp [h]
    exact natToChars_ne_nil i.natAbs

mutual

theorem szV_le : ∀ j : Json, Json.szV j ≤ 2 * (Json.dumpChars j).length
  | .null => by simp [Json.szV, Json.dumpChars]
  | .bool true => by simp [Json.szV, Json.dumpChars]
  | .bool false => by simp [Json.szV, Json.dumpChars]
  | .num n => by
    have := intToChars_ne_nil n
    have hlen : 1 ≤ (intToChars n).length := by
      cases h : intToChars n with
      | nil => exact absurd h this
      | cons a l => simp
    simp only [Json.szV, Json.dumpChars]
    omega
  | .str s => by
    simp only [Json.szV, Json.dumpChars, dumpStr]
    simp only [List.length_cons, List.length_append]
    omega
  | .arr xs => by
    have h := szE_le xs
    simp only [Json.szV, Json.dumpChars]
    simp only [List.cons_append, List.length_append, List.length_cons]
    omega
  | .obj xs => by
    have h := szM_le xs
    simp only [Json.szV, Json.dumpChars]
    simp only [List.cons_append, List.length_append, List.length_cons]
    omega

theorem szE_le : ∀ xs : List Json, Json.szE xs ≤ 2 * (Json.dumpArr xs).length + 2
  | [] => by simp [Json.szE, Json.dumpArr]
  | x :: t => by
    have h1 := szV_le x
    have h2 := szT_le t
    simp only [Json.szE, Json.dumpArr, List.length_append]
    omega

theorem szT_le : ∀ xs : List Json, Json.szT xs ≤ 2 * (Json.dumpArrTail xs).length + 1
  | [] => by simp [Json.szT, Json.dumpArrTail]
  | x :: t => by
    have h1 := szV_le x
    have h2 := szT_le t
    simp only [Json.szT, Json.dumpArrTail, List.length_cons, List.length_append]
    omega

theorem szM_le : ∀ xs : List (Str × Json), Json.szM xs ≤ 2 * (Json.dumpObj xs).length + 2
  | [] => by simp [Json.szM, Json.dumpObj]
  | (k, v) :: t => by
    have h1 := szV_le v
    have h2 := szMT_le t
    simp only [Json.szM, Json.dumpObj, List.length_append, List.length_cons]
    omega

theorem szMT_le : ∀ xs : List (Str × Json),
    Json.szMT xs ≤ 2 * (Json.dumpObjTail xs).length + 1
  | [] => by simp [Json.szMT, Json.dumpObjTail]
  | (k, v) :: t => by
    have h1 := szV_le v
    have h2 := szMT_le t
    simp only [Json.szMT, Json.dumpObjTail, List.length_append, List.length_cons]
    omega

end

/-- The serializer-parser round trip: parsing a dumped value followed by the
terminating newline yields the value back, for every JSON value. -/
theorem jsonLoads_dump (j : Json) :
    jsonLoads (Json.dumpChars j ++ ['\n']) = some j := by
  unfold jsonLoads
  have hb := szV_le j
  have hsz : Json.szV j ≤ 2 * (Json.dumpChars j ++ ['\n']).length + 4 := by
    simp only [List.length_append, List.length_cons, List.length_nil]
    omega
  rw [parse_dump_val j _ ['\n'] hsz (by decide)]
  rfl

theorem endsSeq_append (suf pre : Str) : endsSeq suf (pre ++ suf) = true := by
  unfold endsSeq
  rw [List.reverse_append]
  exact startsSeq_append _ _

/-- C3: a successful emit into a fresh (initially empty) outbox directory
creates exactly one file, named by the fresh canonical UUID with a `.json`
suffix; the file's content is the serialized envelope terminated by a
newline (serialization does not force ASCII escaping — arbitrary strings in
the signal and channel are covered by the quantifiers), and it parses back
as the JSON object `{channel, timestamp, signal}`; the call returns the
bare filename. -/
theorem emit_roundtrip (signal : Json) (channel outbox : Str) (w : EmitWorld)
    (hfiles : w.files = []) (hmk : w.mkdirFails = false)
    (hwr : w.writeInterrupt = none) (huuid : isCanonicalUuid w.uuid = true) :
    emit_message signal channel outbox w =
      (Except.ok (w.uuid ++ ".json".data),
       [(w.uuid ++ ".json".data,
         (build_message signal channel w).dumpChars ++ ['\n'])]) ∧
    isCanonicalUuid w.uuid = true ∧
    endsSeq ".json".data (w.uuid ++ ".json".data) = true ∧
    ((build_message signal channel w).dumpChars ++ ['\n']).getLast? = some '\n' ∧
    jsonLoads ((build_message signal channel w).dumpChars ++ ['\n'])
      = some (Json.obj [("channel".data, Json.str channel),
          ("timestamp".data, Json.str w.timestampNow),
          ("signal".data, signal)]) := by
  refine ⟨?_, huuid, endsSeq_append _ _, ?_, ?_⟩
  · simp [emit_message, write_message, hmk, hwr, hfiles]
  · simp
  · exact jsonLoads_dump (build_message signal channel w)

theorem emit_roundtrip_witness :
    (let w : EmitWorld :=
      ⟨"123e4567-e89b-42d3-a456-426614174000".data, "1728.5".data,
       false, none, [], [], []⟩
     emit_message (Json.obj [("x".data, Json.num 1)]) "hello".data "OUTBOX".data w =
      (Except.ok (w.uuid ++ ".json".data),
       [(w.uuid ++ ".json".data,
         (build_message (Json.obj [("x".data, Json.num 1)]) "hello".data w).dumpChars
           ++ ['\n'])]) ∧
     isCanonicalUuid w.uuid = true ∧
     endsSeq ".json".data (w.uuid ++ ".json".data) = true ∧
     ((build_message (Json.obj [("x".data, Json.num 1)]) "hello".data w).dumpChars
        ++ ['\n']).getLast? = some '\n' ∧
     jsonLoads ((build_message (Json.obj [("x".data, Json.num 1)]) "hello".data w).dumpChars
        ++ ['\n'])
      = some (Json.obj [("channel".data, Json.str "hello".data),
          ("timestamp".data, Json.str w.timestampNow),
          ("signal".data, Json.obj [("x".data, Json.num 1)])])) :=
  emit_roundtrip (Json.obj [("x".data, Json.num 1)]) "hello".data "OUTBOX".data
    ⟨"123e4567-e89b-42d3-a456-426614174000".data, "1728.5".data, false, none, [], [], []⟩
    rfl rfl rfl (by decide)

/-! ### DSL parser line-processing lemmas -/

theorem stripChars_eq_self {l : Str} (h1 : ∀ c, l.head? = some c → isPySpace c = false)
    (h2 : ∀ c, l.getLast? = some c → isPySpace c = false) : stripChars l = l := by
  unfold stripChars
  have e1 : l.dropWhile isPySpace = l := by
    cases l with
    | nil => rfl
    | cons c t => simp [List.dropWhile_cons, h1 c rfl]
  rw [e1]
  have e2 : l.reverse.dropWhile isPySpace = l.reverse := by
    cases hl : l.reverse with
    | nil => rfl
    | cons d t2 =>
      have hd : l.getLast? = some d := by
        rw [← List.head?_reverse, hl]
        rfl
      simp [List.dropWhile_cons, h2 d hd]
  rw [e2, List.reverse_reverse]

theorem strip_parts {l : Str} (h : stripChars l = l) :
    l.dropWhile isPySpace = l ∧ l.reverse.dropWhile isPySpace = l.reverse := by
  have hs1 : (l.dropWhile isPySpace).Sublist l := List.dropWhile_sublist _
  have hs2 : (((l.dropWhile isPySpace).reverse.dropWhile isPySpace)).Sublist
      (l.dropWhile isPySpace).reverse := List.dropWhile_sublist _
  have hlen : (stripChars l).length = l.length := by rw [h]
  have hlen2 : (stripChars l).length
      = ((l.dropWhile isPySpace).reverse.dropWhile isPySpace).length := by
    unfold stripChars
    simp
  have hle1 : (l.dropWhile isPySpace).length ≤ l.length := hs1.length_le
  have hle2 : ((l.dropWhile isPySpace).reverse.dropWhile isPySpace).length
      ≤ (l.dropWhile isPySpace).reverse.length := hs2.length_le
  simp only [List.length_reverse] at hle2
  have he1 : l.dropWhile isPySpace = l := hs1.eq_of_length (by omega)
  refine ⟨he1, ?_⟩
  have : stripChars l = (l.reverse.dropWhile isPySpace).reverse := by
    unfold stripChars
    rw [he1]
  rw [h] at this
  have := congrArg List.reverse this
  simpa using this.symm

theorem strip_head_not_space {c : Char} {t : Str} (h : stripChars (c :: t) = c :: t) :
    isPySpace c = false := by
  have e1 := (strip_parts h).1
  by_contra hc
  have hc2 : isPySpace c = true := by simpa using hc
  rw [List.dropWhile_cons, if_pos hc2] at e1
  have := congrArg List.length e1
  have hle : (t.dropWhile isPySpace).length ≤ t.length :=
    (List.dropWhile_sublist _).length_le
  simp at this
  omega

theorem strip_last_not_space {l : Str} (h : stripChars l = l) {d : Char}
    (hd : l.getLast? = some d) : isPySpace d = false := by
  have e2 := (strip_parts h).2
  rw [← List.head?_reverse] at hd
  cases hl : l.reverse with
  | nil => rw [hl] at hd; exact Option.noConfusion hd
  | cons d2 t2 =>
    rw [hl] at hd e2
    have hd2 : d2 = d := by
      simpa using hd
    subst hd2
    by_contra hc
    have hc2 : isPySpace d2 = true := by simpa using hc
    rw [List.dropWhile_cons, if_pos hc2] at e2
    have := congrArg List.length e2
    have hle : (t2.dropWhile isPySpace).length ≤ t2.length :=
      (List.dropWhile_sublist _).length_le
    simp at this
    omega

theorem stripChars_cons_space {c : Char} (l : Str) (h : isPySpace c = true) :
    stripChars (c :: l) = stripChars l := by
  unfold stripChars
  rw [List.dropWhile_cons, if_pos h]

theorem splitlinesAux_cons_nobreak {c : Char} (hc : isLineBreak c = false)
    (hcr : c ≠ '\r') (c2 : Char) (rest acc : Str) :
    splitlinesAux (c :: c2 :: rest) acc = splitlinesAux (c2 :: rest) (c :: acc) := by
  rw [splitlinesAux]
  rw [if_neg (by simp [hcr]), if_neg (by simp [hc])]

theorem splitlinesAux_line {l : Str} (h : ∀ c ∈ l, isLineBreak c = false) :
    ∀ (rest acc : Str),
    splitlinesAux (l ++ '\n' :: rest) acc = (acc.reverse ++ l) :: splitlinesAux rest [] := by
  induction l with
  | nil =>
    intro rest acc
    simp only [List.nil_append, List.append_nil]
    cases rest with
    | nil =>
      rw [splitlinesAux]
      rw [if_pos (by decide)]
      rfl
    | cons r rs =>
      rw [splitlinesAux]
      rw [if_neg (by simp), if_pos (by decide)]
  | cons c t ih =>
    intro rest acc
    have hc : isLineBreak c = false := h c (List.mem_cons_self c t)
    have hcr : c ≠ '\r' := by
      intro hh
      subst hh
      simp [isLineBreak] at hc
    have hstep : splitlinesAux ((c :: t) ++ '\n' :: rest) acc
        = splitlinesAux (t ++ '\n' :: rest) (c :: acc) := by
      cases t with
      | nil => exact splitlinesAux_cons_nobreak hc hcr '\n' rest acc
      | cons c2 t2 => exact splitlinesAux_cons_nobreak hc hcr c2 (t2 ++ '\n' :: rest) acc
    rw [hstep]
    rw [ih (fun x hx => h x (List.mem_cons_of_mem c hx)) rest (c :: acc)]
    simp

theorem splitlinesAux_last {l : Str} (h : ∀ c ∈ l, isLineBreak c = false) (hne : l ≠ []) :
    ∀ (acc : Str), splitlinesAux l acc = [acc.reverse ++ l] := by
  induction l with
  | nil => exact absurd rfl hne
  | cons c t ih =>
    intro acc
    have hc : isLineBreak c = false := h c (List.mem_cons_self c t)
    have hcr : c ≠ '\r' := by
      intro hh
      subst hh
      simp [isLineBreak] at hc
    cases ht : t with
    | nil =>
      subst ht
      rw [splitlinesAux]
      rw [if_neg (by simp [hc])]
      simp
    | cons c2 t2 =>
      rw [← ht]
      have hstep : splitlinesAux (c :: t) acc = splitlinesAux t (c :: acc) := by
        rw [ht]
        exact splitlinesAux_cons_nobreak hc hcr c2 t2 acc
      rw [hstep]
      rw [ih (fun x hx => h x (List.mem_cons_of_mem c hx)) (by rw [ht]; simp) (c :: acc)]
      simp

theorem splitlines_joinNl_concat : ∀ (pre : List Str) (last : Str),
    (∀ l ∈ pre, ∀ c ∈ l, isLineBreak c = false) →
    (∀ c ∈ last, isLineBreak c = false) → last ≠ [] →
    splitlines (joinNl (pre ++ [last])) = pre ++ [last] := by
  intro pre
  induction pre with
  | nil =>
    intro last hpre hlast hne
    show splitlinesAux (joinNl [last]) [] = [last]
    rw [show joinNl [last] = last from rfl]
    rw [splitlinesAux_last hlast hne []]
    rfl
  | cons l ls ih =>
    intro last hpre hlast hne
    have hl : ∀ c ∈ l, isLineBreak c = false := hpre l (List.mem_cons_self l ls)
    have hjoin : joinNl ((l :: ls) ++ [last]) = l ++ '\n' :: joinNl (ls ++ [last]) := by
      cases ls with
      | nil => rfl
      | cons l2 ls2 => rfl
    show splitlinesAux (joinNl ((l :: ls) ++ [last])) [] = (l :: ls) ++ [last]
    rw [hjoin]
    rw [splitlinesAux_line hl (joinNl (ls ++ [last])) []]
    rw [show splitlinesAux (joinNl (ls ++ [last])) [] = splitlines (joinNl (ls ++ [last])) from rfl]
    rw [ih last (fun x hx => hpre x (List.mem_cons_of_mem l hx)) hlast hne]
    simp

theorem processLines_append {xs : List Str} : ∀ {n : Nat} {st st2 : PState},
    processLines n xs st = .ok st2 → ∀ (ys : List Str),
    processLines n (xs ++ ys) st = processLines (n + xs.length) ys st2 := by
  induction xs with
  | nil =>
    intro n st st2 h ys
    have : st = st2 := by
      simpa [processLines] using h
    subst this
    simp [processLines]
  | cons l t ih =>
    intro n st st2 h ys
    rw [processLines] at h
    cases hpl : processLine n l st with
    | error e => rw [hpl] at h; exact Except.noConfusion h
    | ok st3 =>
      rw [hpl] at h
      have h2 : processLines (n + 1) t st3 = .ok st2 := h
      show processLines n (l :: (t ++ ys)) st = _
      rw [processLines, hpl]
      show processLines (n + 1) (t ++ ys) st3 = _
      rw [ih h2 ys]
      have harith : n + 1 + t.length = n + (l :: t).length := by simp; omega
      rw [harith]


theorem contains_eq_false_of_not_mem {l : Str} {a : Char} (h : a ∉ l) :
    l.contains a = false := by
  simpa using h

theorem occursIn_of_decomp (pre suf : Str) {pat l : Str} (h : l = pre ++ (pat ++ suf)) :
    occursIn pat l = true := by
  rw [h]
  exact occursIn_mid pre pat suf

theorem splitLt_no_lt {tn : Str} (h : ∀ c ∈ tn, c ≠ '<') (rest : Str) :
    splitLt (tn ++ '<' :: rest) = some (tn, rest) := by
  induction tn with
  | nil => rfl
  | cons c t ih =>
    show splitLt (c :: (t ++ '<' :: rest)) = _
    rw [splitLt]
    rw [if_neg (h c (List.mem_cons_self c t))]
    rw [ih (fun x hx => h x (List.mem_cons_of_mem c hx))]
    rfl

theorem processLine_dup {raw left right id : Str} {st : PState} {n : Nat}
    (hhash : startsSeq "#".data (stripChars raw) = false)
    (hsep : splitTwoDash (stripChars raw) = some (left, right))
    (hid : stripChars left = id)
    (hidne : id ≠ [])
    (hdup : id ∈ st.seen) :
    processLine n raw st = .error ("Line ".data ++ natToChars n ++
      ": duplicate identifier '".data ++ id ++ "'".data) := by
  have hempty : (stripChars raw).isEmpty = false := by
    cases hsr : stripChars raw with
    | nil => rw [hsr] at hsep; exact Option.noConfusion hsep
    | cons c t => rfl
  have hidempty : id.isEmpty = false := by
    cases id with
    | nil => exact absurd rfl hidne
    | cons c t => rfl
  simp only [processLine, hempty, hhash, hsep, hid, hidempty, Bool.false_eq_true, if_false]
  rw [if_pos hdup]

theorem processLine_type_error {raw left right id tsr spec e : Str} {st : PState} {n : Nat}
    (hhash : startsSeq "#".data (stripChars raw) = false)
    (hsep : splitTwoDash (stripChars raw) = some (left, right))
    (hid : stripChars left = id)
    (hidne : id ≠ [])
    (hfresh : id ∉ st.seen)
    (htsr : stripChars right = tsr)
    (hspec : (if tsr.contains '#' then stripChars (tsr.takeWhile (· ≠ '#')) else tsr) = spec)
    (htype : _parse_type_spec spec id n = .error e) :
    processLine n raw st = .error e := by
  have hempty : (stripChars raw).isEmpty = false := by
    cases hsr : stripChars raw with
    | nil => rw [hsr] at hsep; exact Option.noConfusion hsep
    | cons c t => rfl
  have hidempty : id.isEmpty = false := by
    cases id with
    | nil => exact absurd rfl hidne
    | cons c t => rfl
  simp only [processLine, hempty, hhash, hsep, hid, hidempty, Bool.false_eq_true, if_false]
  rw [if_neg hfresh, htsr, hspec, htype]

theorem parse_spec_error_at {text : Str} {pre post : List Str} {l : Str} {st : PState} {e : Str}
    (hsplit : splitlines text = pre ++ l :: post)
    (hpre : processLines 1 pre initPState = .ok st)
    (hline : processLine (pre.length + 1) l st = .error e) :
    parse_spec text = .error e := by
  unfold parse_spec
  rw [hsplit, processLines_append hpre (l :: post)]
  rw [show 1 + pre.length = pre.length + 1 from Nat.add_comm 1 pre.length]
  rw [processLines]
  rw [hline]
  rfl


/-! ### C9: duplicate identifiers -/

/-- Counterexample to claim C9: the DSL text `"a -- bool\nbad\na -- bool"`
contains the same identifier `a` on two field lines (lines 1 and 3), yet
`parse_spec` fails on the intervening malformed line 2 with a
`missing '--' separator` reason that does not mention `duplicate identifier`
(the loop raises on the first bad line, so an earlier error preempts the
duplicate check). -/
theorem duplicate_identifier_preempted :
    parse_spec "a -- bool\nbad\na -- bool".data =
      .error "Line 2: missing '--' separator".data ∧
    occursIn "duplicate identifier".data "Line 2: missing '--' separator".data = false :=
  ⟨rfl, rfl⟩

/-- **C9 (amended).**  When every line before line `pre.length + 1` processes
successfully and that line is a field line (not blank, not a `#` line,
containing `--`) whose stripped identifier is non-empty and has already been
seen, `parse_spec` fails with exactly
`Line {n}: duplicate identifier '{id}'`, a reason containing
`duplicate identifier` and the 1-based line number of the second
occurrence. -/
theorem duplicate_identifier_amended
    (text : Str) (pre post : List Str) (l left right id : Str) (st : PState)
    (hsplit : splitlines text = pre ++ l :: post)
    (hpre : processLines 1 pre initPState = .ok st)
    (hhash : startsSeq "#".data (stripChars l) = false)
    (hsep : splitTwoDash (stripChars l) = some (left, right))
    (hid : stripChars left = id)
    (hidne : id ≠ [])
    (hdup : id ∈ st.seen) :
    parse_spec text = .error ("Line ".data ++ natToChars (pre.length + 1) ++
      ": duplicate identifier '".data ++ id ++ "'".data) ∧
    occursIn "duplicate identifier".data ("Line ".data ++ natToChars (pre.length + 1) ++
      ": duplicate identifier '".data ++ id ++ "'".data) = true ∧
    occursIn ("Line ".data ++ natToChars (pre.length + 1))
      ("Line ".data ++ natToChars (pre.length + 1) ++
       ": duplicate identifier '".data ++ id ++ "'".data) = true := by
  refine ⟨?_, ?_, ?_⟩
  · exact parse_spec_error_at hsplit hpre (processLine_dup hhash hsep hid hidne hdup)
  · exact occursIn_of_decomp ("Line ".data ++ natToChars (pre.length + 1) ++ ": ".data)
      (" '".data ++ id ++ "'".data)
      (by rw [show (": duplicate identifier '" : String).data
            = ": ".data ++ ("duplicate identifier".data ++ " '".data) from rfl]
          simp [List.append_assoc])
  · exact occursIn_of_decomp [] (": duplicate identifier '".data ++ id ++ "'".data)
      (by simp [List.append_assoc])

/-- Witness for `duplicate_identifier_amended` at the concrete text
`"a -- bool\na -- bool"`: the duplicate on line 2 is reported. -/
theorem duplicate_identifier_amended_witness :
    parse_spec "a -- bool\na -- bool".data =
      .error "Line 2: duplicate identifier 'a'".data := by
  have h := duplicate_identifier_amended "a -- bool\na -- bool".data
      ["a -- bool".data] [] "a -- bool".data "a ".data " bool".data "a".data
      ⟨⟨none, none⟩, [⟨"a".data, .bool⟩], ["a".data]⟩
      rfl rfl rfl rfl rfl (by decide) (by decide)
  exact h.1


/-! ### C7: width/height parameter errors -/

theorem parse_one_int_lt {s : Str} {v : Int} (pname id : Str) (n : Nat)
    (hp : pyParseInt s = some v) (hv : v < 1) :
    _parse_one_int s pname id n = .error ("Line ".data ++ natToChars n ++ ": ".data ++
      pname ++ " must be >= 1 for '".data ++ id ++ "'".data) := by
  simp only [_parse_one_int, hp]
  rw [if_pos hv]

theorem parse_one_int_noint (pname id : Str) (n : Nat) {s : Str}
    (hp : pyParseInt s = none) :
    _parse_one_int s pname id n = .error ("Line ".data ++ natToChars n ++ ": ".data ++
      pname ++ " must be an integer for '".data ++ id ++ "'".data) := by
  simp only [_parse_one_int, hp]

theorem parse_two_ints_lt {s p0 p1 : Str} {w h : Int} (id : Str) (n : Nat)
    (hsp : splitComma s = [p0, p1])
    (hw : pyParseInt (stripChars p0) = some w)
    (hh : pyParseInt (stripChars p1) = some h)
    (hlt : w < 1 ∨ h < 1) :
    _parse_two_ints s id n = .error ("Line ".data ++ natToChars n ++
      ": width and height must be >= 1 for '".data ++ id ++ "'".data) := by
  simp only [_parse_two_ints, hsp, hw, hh]
  rw [if_pos (by rcases hlt with h1 | h1 <;> simp [h1])]

theorem parse_two_ints_noint {s p0 p1 : Str} (id : Str) (n : Nat)
    (hsp : splitComma s = [p0, p1])
    (hnone : pyParseInt (stripChars p0) = none ∨ pyParseInt (stripChars p1) = none) :
    _parse_two_ints s id n = .error ("Line ".data ++ natToChars n ++
      ": width and height must be integers for '".data ++ id ++ "'".data) := by
  simp only [_parse_two_ints, hsp]
  rcases hnone with h1 | h1
  · rw [h1]
  · cases hp0 : pyParseInt (stripChars p0) with
    | none => rfl
    | some w => rw [h1]

theorem parse_type_spec_dispatch (tn params id : Str) (n : Nat)
    (hlt : ∀ c ∈ tn, c ≠ '<')
    (hstrip : stripChars tn = tn)
    (hq : startsSeq "\"".data (tn ++ '<' :: (params ++ ">".data)) = false) :
    _parse_type_spec (tn ++ '<' :: (params ++ ">".data)) id n =
      (if tn = "str".data then (_parse_one_int params "width".data id n).map .str
       else if tn = "int".data then (_parse_one_int params "width".data id n).map .int
       else if tn = "float".data then (_parse_one_int params "width".data id n).map .float
       else if tn = "text".data then
         (_parse_two_ints params id n).map (fun p => .text p.1 p.2)
       else if tn = "json".data then
         (_parse_two_ints params id n).map (fun p => .json p.1 p.2)
       else if tn = "choice".data then
         (let items := (splitComma params).map stripChars
          if items.isEmpty || items.any (·.isEmpty) then
            .error ("Line ".data ++ natToChars n ++ ": empty item in choice list for '".data ++
                    id ++ "'".data)
          else .ok (.choice items))
       else
         .error ("Line ".data ++ natToChars n ++ ": unknown type '".data ++
                 tn ++ "' for '".data ++ id ++ "'".data)) := by
  have hmem : '<' ∈ tn ++ '<' :: (params ++ ">".data) := by simp
  have hnb : tn ++ '<' :: (params ++ ">".data) ≠ "bool".data := by
    intro h
    rw [h] at hmem
    exact absurd hmem (by decide)
  have hnd : tn ++ '<' :: (params ++ ">".data) ≠ "date".data := by
    intro h
    rw [h] at hmem
    exact absurd hmem (by decide)
  have hnt : tn ++ '<' :: (params ++ ">".data) ≠ "time".data := by
    intro h
    rw [h] at hmem
    exact absurd hmem (by decide)
  have hend : endsSeq ">".data (params ++ ">".data) = true := endsSeq_append ">".data params
  have hdl : (params ++ ">".data).dropLast = params := List.dropLast_concat
  simp only [_parse_type_spec]
  rw [if_neg hnb]
  rw [if_neg hnd]
  rw [if_neg hnt]
  rw [hq]
  simp only [Bool.false_eq_true, if_false]
  rw [splitLt_no_lt hlt (params ++ ">".data)]
  simp only [hstrip, hend, Bool.not_true, Bool.false_eq_true, if_false, hdl]


/-- Counterexample to claim C7: the DSL text `"bad\nx -- str<0>"` contains a
field line whose declared width is `0 < 1`, yet `parse_spec` fails on the
earlier malformed line 1 with a reason that mentions neither `>= 1` nor
`integer` nor the field's line number (the loop raises on the first bad
line). -/
theorem width_error_preempted :
    parse_spec "bad\nx -- str<0>".data = .error "Line 1: missing '--' separator".data ∧
    occursIn ">= 1".data "Line 1: missing '--' separator".data = false ∧
    occursIn "integer".data "Line 1: missing '--' separator".data = false :=
  ⟨rfl, rfl, rfl⟩

/-- **C7 (amended).**  Width/height validation of field parameters, assuming
every earlier line processes successfully.  (i) a parameter parsing as an
integer `v < 1` makes `_parse_one_int` fail with a message containing
`>= 1` and `Line {n}`; (ii) a parameter that does not parse as an integer
makes it fail with a message containing `integer` and `Line {n}`;
(iii)/(iv) the same for the two-parameter form `_parse_two_ints`;
(v) `_parse_type_spec` on `str<...>`, `int<...>`, `float<...>`, `text<...>`
and `json<...>` dispatches exactly to these helpers; (vi) when the lines
before a field line all process successfully and that line's type spec
produces any `_parse_type_spec` error, `parse_spec` fails with exactly that
error, whose line number is the field line's 1-based index. -/
theorem width_height_errors_amended :
    (∀ (s pname id : Str) (n : Nat) (v : Int), pyParseInt s = some v → v < 1 →
      _parse_one_int s pname id n = .error ("Line ".data ++ natToChars n ++ ": ".data ++
          pname ++ " must be >= 1 for '".data ++ id ++ "'".data) ∧
      occursIn ">= 1".data ("Line ".data ++ natToChars n ++ ": ".data ++
          pname ++ " must be >= 1 for '".data ++ id ++ "'".data) = true ∧
      occursIn ("Line ".data ++ natToChars n) ("Line ".data ++ natToChars n ++ ": ".data ++
          pname ++ " must be >= 1 for '".data ++ id ++ "'".data) = true) ∧
    (∀ (s pname id : Str) (n : Nat), pyParseInt s = none →
      _parse_one_int s pname id n = .error ("Line ".data ++ natToChars n ++ ": ".data ++
          pname ++ " must be an integer for '".data ++ id ++ "'".data) ∧
      occursIn "integer".data ("Line ".data ++ natToChars n ++ ": ".data ++
          pname ++ " must be an integer for '".data ++ id ++ "'".data) = true ∧
      occursIn ("Line ".data ++ natToChars n) ("Line ".data ++ natToChars n ++ ": ".data ++
          pname ++ " must be an integer for '".data ++ id ++ "'".data) = true) ∧
    (∀ (s p0 p1 id : Str) (n : Nat) (w h : Int), splitComma s = [p0, p1] →
      pyParseInt (stripChars p0) = some w → pyParseInt (stripChars p1) = some h →
      w < 1 ∨ h < 1 →
      _parse_two_ints s id n = .error ("Line ".data ++ natToChars n ++
          ": width and height must be >= 1 for '".data ++ id ++ "'".data) ∧
      occursIn ">= 1".data ("Line ".data ++ natToChars n ++
          ": width and height must be >= 1 for '".data ++ id ++ "'".data) = true ∧
      occursIn ("Line ".data ++ natToChars n) ("Line ".data ++ natToChars n ++
          ": width and height must be >= 1 for '".data ++ id ++ "'".data) = true) ∧
    (∀ (s p0 p1 id : Str) (n : Nat), splitComma s = [p0, p1] →
      pyParseInt (stripChars p0) = none ∨ pyParseInt (stripChars p1) = none →
      _parse_two_ints s id n = .error ("Line ".data ++ natToChars n ++
          ": width and height must be integers for '".data ++ id ++ "'".data) ∧
      occursIn "integer".data ("Line ".data ++ natToChars n ++
          ": width and height must be integers for '".data ++ id ++ "'".data) = true ∧
      occursIn ("Line ".data ++ natToChars n) ("Line ".data ++ natToChars n ++
          ": width and height must be integers for '".data ++ id ++ "'".data) = true) ∧
    (∀ (params id : Str) (n : Nat),
      _parse_type_spec ("str".data ++ '<' :: (params ++ ">".data)) id n =
        (_parse_one_int params "width".data id n).map .str ∧
      _parse_type_spec ("int".data ++ '<' :: (params ++ ">".data)) id n =
        (_parse_one_int params "width".data id n).map .int ∧
      _parse_type_spec ("float".data ++ '<' :: (params ++ ">".data)) id n =
        (_parse_one_int params "width".data id n).map .float ∧
      _parse_type_spec ("text".data ++ '<' :: (params ++ ">".data)) id n =
        (_parse_two_ints params id n).map (fun p => .text p.1 p.2) ∧
      _parse_type_spec ("json".data ++ '<' :: (params ++ ">".data)) id n =
        (_parse_two_ints params id n).map (fun p => .json p.1 p.2)) ∧
    (∀ (text : Str) (pre post : List Str) (l left right id tsr spec e : Str) (st : PState),
      splitlines text = pre ++ l :: post →
      processLines 1 pre initPState = .ok st →
      startsSeq "#".data (stripChars l) = false →
      splitTwoDash (stripChars l) = some (left, right) →
      stripChars left = id → id ≠ [] → id ∉ st.seen →
      stripChars right = tsr →
      (if tsr.contains '#' then stripChars (tsr.takeWhile (· ≠ '#')) else tsr) = spec →
      _parse_type_spec spec id (pre.length + 1) = .error e →
      parse_spec text = .error e) := by
  refine ⟨?_, ?_, ?_, ?_, ?_, ?_⟩
  · intro s pname id n v hp hv
    refine ⟨parse_one_int_lt pname id n hp hv, ?_, ?_⟩
    · exact occursIn_of_decomp
        ("Line ".data ++ natToChars n ++ ": ".data ++ pname ++ " must be ".data)
        (" for '".data ++ id ++ "'".data)
        (by rw [show (" must be >= 1 for '" : String).data
              = " must be ".data ++ (">= 1".data ++ " for '".data) from rfl]
            simp [List.append_assoc])
    · exact occursIn_of_decomp []
        (": ".data ++ pname ++ " must be >= 1 for '".data ++ id ++ "'".data)
        (by simp [List.append_assoc])
  · intro s pname id n hp
    refine ⟨parse_one_int_noint pname id n hp, ?_, ?_⟩
    · exact occursIn_of_decomp
        ("Line ".data ++ natToChars n ++ ": ".data ++ pname ++ " must be an ".data)
        (" for '".data ++ id ++ "'".data)
        (by rw [show (" must be an integer for '" : String).data
              = " must be an ".data ++ ("integer".data ++ " for '".data) from rfl]
            simp [List.append_assoc])
    · exact occursIn_of_decomp []
        (": ".data ++ pname ++ " must be an integer for '".data ++ id ++ "'".data)
        (by simp [List.append_assoc])
  · intro s p0 p1 id n w h hsp hw hh hlt
    refine ⟨parse_two_ints_lt id n hsp hw hh hlt, ?_, ?_⟩
    · exact occursIn_of_decomp
        ("Line ".data ++ natToChars n ++ ": width and height must be ".data)
        (" for '".data ++ id ++ "'".data)
        (by rw [show (": width and height must be >= 1 for '" : String).data
              = ": width and height must be ".data ++ (">= 1".data ++ " for '".data) from rfl]
            simp [List.append_assoc])
    · exact occursIn_of_decomp []
        (": width and height must be >= 1 for '".data ++ id ++ "'".data)
        (by simp [List.append_assoc])
  · intro s p0 p1 id n hsp hnone
    refine ⟨parse_two_ints_noint id n hsp hnone, ?_, ?_⟩
    · exact occursIn_of_decomp
        ("Line ".data ++ natToChars n ++ ": width and height must be ".data)
        ("s for '".data ++ id ++ "'".data)
        (by rw [show (": width and height must be integers for '" : String).data
              = ": width and height must be ".data ++ ("integer".data ++ "s for '".data) from rfl]
            simp [List.append_assoc])
    · exact occursIn_of_decomp []
        (": width and height must be integers for '".data ++ id ++ "'".data)
        (by simp [List.append_assoc])
  · intro params id n
    refine ⟨?_, ?_, ?_, ?_, ?_⟩
    · rw [parse_type_spec_dispatch "str".data params id n (by decide) rfl rfl]
      rw [if_pos rfl]
    · rw [parse_type_spec_dispatch "int".data params id n (by decide) rfl rfl]
      rw [if_neg (by decide), if_pos rfl]
    · rw [parse_type_spec_dispatch "float".data params id n (by decide) rfl rfl]
      rw [if_neg (by decide), if_neg (by decide), if_pos rfl]
    · rw [parse_type_spec_dispatch "text".data params id n (by decide) rfl rfl]
      rw [if_neg (by decide), if_neg (by decide), if_neg (by decide), if_pos rfl]
    · rw [parse_type_spec_dispatch "json".data params id n (by decide) rfl rfl]
      rw [if_neg (by decide), if_neg (by decide), if_neg (by decide), if_neg (by decide),
          if_pos rfl]
  · intro text pre post l left right id tsr spec e st hsplit hpre hhash hsep hid hidne
      hfresh htsr hspec htype
    exact parse_spec_error_at hsplit hpre
      (processLine_type_error hhash hsep hid hidne hfresh htsr hspec htype)

/-- Witness for `width_height_errors_amended`: a zero width on line 1 of
`"x -- str<0>"` is reported with the `>= 1` message, and a non-integer
height in `"y -- text<5,zz>"` with the `integers` message. -/
theorem width_height_errors_amended_witness :
    parse_spec "x -- str<0>".data = .error "Line 1: width must be >= 1 for 'x'".data ∧
    occursIn ">= 1".data "Line 1: width must be >= 1 for 'x'".data = true ∧
    parse_spec "y -- text<5,zz>".data =
      .error "Line 1: width and height must be integers for 'y'".data := by
  refine ⟨?_, ?_, ?_⟩
  · exact width_height_errors_amended.2.2.2.2.2 "x -- str<0>".data [] []
      "x -- str<0>".data "x ".data " str<0>".data "x".data "str<0>".data "str<0>".data
      "Line 1: width must be >= 1 for 'x'".data initPState
      rfl rfl rfl rfl rfl (by decide) (by decide) rfl rfl rfl
  · exact (width_height_errors_amended.1 "0".data "width".data "x".data 1 0 rfl
      (by decide)).2.1
  · exact width_height_errors_amended.2.2.2.2.2 "y -- text<5,zz>".data [] []
      "y -- text<5,zz>".data "y ".data " text<5,zz>".data "y".data "text<5,zz>".data
      "text<5,zz>".data
      "Line 1: width and height must be integers for 'y'".data initPState
      rfl rfl rfl rfl rfl (by decide) (by decide) rfl rfl rfl


/-! ### C2: fixed quoted literals -/

/-- Counterexample to claim C2: for the enclosed string `#`, the field line
`x -- "#"` does not produce a fixed field with value `#`.  The `'#'` inside
the quoted literal starts an inline comment: the type spec is truncated to
the lone `"` before `_parse_type_spec` runs, so parsing fails with the
malformed-fixed-value error instead. -/
theorem fixed_hash_truncated :
    parse_spec ("x -- \"".data ++ "#".data ++ "\"".data) =
      .error "Line 1: malformed fixed value for 'x' (must be a quoted string)".data :=
  rfl

/-- **C2 (amended).**  For every string `s` containing no `'#'` and no
line-break character, parsing the single field line `x -- "s"` succeeds and
yields a fixed field whose value is exactly `s`, verbatim, with no escape
processing (internal `"` and backslashes included). -/
theorem fixed_verbatim_amended (s : Str)
    (hhash : '#' ∉ s)
    (hbreak : ∀ c ∈ s, isLineBreak c = false) :
    parse_spec ("x -- \"".data ++ s ++ "\"".data) =
      .ok (⟨none, none⟩, [⟨"x".data, FieldType.fixed s⟩]) := by
  have htext : ∀ c ∈ (['x',' ','-','-',' ','"'] ++ (s ++ ['"'])), isLineBreak c = false := by
    intro c hc
    rcases List.mem_append.mp hc with h1 | h1
    · simp only [List.mem_cons, List.not_mem_nil, or_false] at h1
      rcases h1 with rfl | rfl | rfl | rfl | rfl | rfl <;> decide
    · rcases List.mem_append.mp h1 with h2 | h2
      · exact hbreak c h2
      · simp only [List.mem_cons, List.not_mem_nil, or_false] at h2
        rcases h2 with rfl
        decide
  have hsl : splitlines (['x',' ','-','-',' ','"'] ++ (s ++ ['"']))
      = [['x',' ','-','-',' ','"'] ++ (s ++ ['"'])] := by
    show splitlinesAux (['x',' ','-','-',' ','"'] ++ (s ++ ['"'])) [] = _
    rw [splitlinesAux_last htext (by simp) []]
    simp
  have hstrip : stripChars (['x',' ','-','-',' ','"'] ++ (s ++ ['"']))
      = ['x',' ','-','-',' ','"'] ++ (s ++ ['"']) := by
    apply stripChars_eq_self
    · intro c hc
      rw [show (['x',' ','-','-',' ','"'] ++ (s ++ ['"'])).head? = some 'x' from rfl] at hc
      injection hc with h1
      rw [← h1]
      decide
    · intro c hc
      rw [show (['x',' ','-','-',' ','"'] ++ (s ++ ['"']))
            = ((['x',' ','-','-',' ','"'] ++ s) ++ ['"']) from rfl] at hc
      rw [List.getLast?_concat] at hc
      injection hc with h1
      rw [← h1]
      decide
  have htsr : stripChars (' ' :: '"' :: (s ++ ['"'])) = '"' :: (s ++ ['"']) := by
    rw [show stripChars (' ' :: '"' :: (s ++ ['"'])) = stripChars ('"' :: (s ++ ['"']))
          from stripChars_cons_space _ (by decide)]
    apply stripChars_eq_self
    · intro c hc
      rw [show (('"' :: (s ++ ['"'])) : Str).head? = some '"' from rfl] at hc
      injection hc with h1
      rw [← h1]
      decide
    · intro c hc
      rw [show (('"' :: (s ++ ['"'])) : Str) = (('"' :: s) ++ ['"']) from rfl] at hc
      rw [List.getLast?_concat] at hc
      injection hc with h1
      rw [← h1]
      decide
  have hcont : (('"' :: (s ++ ['"'])) : Str).contains '#' = false := by
    apply contains_eq_false_of_not_mem
    intro hmem
    rcases List.mem_cons.mp hmem with h1 | h1
    · exact absurd h1 (by decide)
    · rcases List.mem_append.mp h1 with h2 | h2
      · exact hhash h2
      · exact absurd h2 (by decide)
  have hqs : startsSeq "\"".data ('"' :: (s ++ ['"'])) = true := rfl
  have hend : endsSeq "\"".data ('"' :: (s ++ ['"'])) = true := by
    rw [show (('"' :: (s ++ ['"'])) : Str) = (('"' :: s) ++ "\"".data) from rfl]
    exact endsSeq_append "\"".data ('"' :: s)
  have hval : ((('"' :: (s ++ ['"'])) : Str).drop 1).dropLast = s := by
    show (s ++ ['"']).dropLast = s
    exact List.dropLast_concat
  have hts : _parse_type_spec ('"' :: (s ++ ['"'])) ['x'] 1 = .ok (.fixed s) := by
    have hq1 : (('"' :: (s ++ ['"'])) : Str) ≠ "bool".data := by
      intro h
      injection h with h1 _
      exact absurd h1 (by decide)
    have hq2 : (('"' :: (s ++ ['"'])) : Str) ≠ "date".data := by
      intro h
      injection h with h1 _
      exact absurd h1 (by decide)
    have hq3 : (('"' :: (s ++ ['"'])) : Str) ≠ "time".data := by
      intro h
      injection h with h1 _
      exact absurd h1 (by decide)
    simp only [_parse_type_spec]
    rw [if_neg hq1, if_neg hq2, if_neg hq3]
    rw [if_pos hqs]
    rw [if_neg (by
      rw [hend]
      simp only [Bool.not_true, Bool.false_or, decide_eq_true_eq, List.length_cons,
        List.length_append, List.length_singleton]
      omega)]
    rw [hval]
  have hnm : (['x'] : Str) ∉ initPState.seen := by
    simp [initPState]
  have hpl : processLine 1 (['x',' ','-','-',' ','"'] ++ (s ++ ['"'])) initPState
      = .ok ⟨⟨none, none⟩, [⟨"x".data, FieldType.fixed s⟩], ["x".data]⟩ := by
    have hh : startsSeq "#".data (['x',' ','-','-',' ','"'] ++ (s ++ ['"'])) = false := rfl
    have hsp2 : splitTwoDash (['x',' ','-','-',' ','"'] ++ (s ++ ['"']))
        = some (['x',' '], ' ' :: '"' :: (s ++ ['"'])) := rfl
    have hid2 : stripChars ['x',' '] = ['x'] := rfl
    have hemp : ((['x',' ','-','-',' ','"'] ++ (s ++ ['"'])) : Str).isEmpty = false := rfl
    have hidemp : (['x'] : Str).isEmpty = false := rfl
    simp only [processLine, hstrip, hemp, hh, hsp2, hid2, hidemp, Bool.false_eq_true, if_false]
    rw [if_neg hnm]
    rw [htsr, hcont]
    simp only [Bool.false_eq_true, if_false]
    rw [hts]
    rfl
  show parse_spec (['x',' ','-','-',' ','"'] ++ (s ++ ['"']))
      = .ok (⟨none, none⟩, [⟨"x".data, FieldType.fixed s⟩])
  simp only [parse_spec]
  rw [hsl]
  rw [processLines, hpl]
  rfl

/-- Witness for `fixed_verbatim_amended` at `s = "hello"`:
`x -- "hello"` parses to the fixed field with value `hello`. -/
theorem fixed_verbatim_amended_witness :
    parse_spec "x -- \"hello\"".data =
      .ok (⟨none, none⟩, [⟨"x".data, FieldType.fixed "hello".data⟩]) := by
  have h := fixed_verbatim_amended "hello".data (by decide) (by decide)
  exact h


/-! ### C6: field-by-field validation -/

theorem collect_first_error {tab : TabInput} {f : Field} {e : Str} :
    ∀ (pre rest : List Field),
    (∀ g ∈ pre, ∃ v, collectField tab g = .ok v) →
    collectField tab f = .error e →
    _collect_values_from_tab (pre ++ f :: rest) tab = .error e := by
  intro pre
  induction pre with
  | nil =>
    intro rest hpre herr
    simp only [List.nil_append, _collect_values_from_tab, herr]
  | cons g t ih =>
    intro rest hpre herr
    obtain ⟨v, hv⟩ := hpre g (List.mem_cons_self g t)
    show _collect_values_from_tab (g :: (t ++ f :: rest)) tab = .error e
    simp only [_collect_values_from_tab, hv]
    rw [ih rest (fun x hx => hpre x (List.mem_cons_of_mem g hx)) herr]

theorem collect_ok_ids {tab : TabInput} :
    ∀ {fields : List Field} {sig : List (Str × Value)},
    _collect_values_from_tab fields tab = .ok sig →
    sig.map Prod.fst = fields.map Field.id := by
  intro fields
  induction fields with
  | nil =>
    intro sig h
    simp only [_collect_values_from_tab] at h
    injection h with h1
    rw [← h1]
    rfl
  | cons f t ih =>
    intro sig h
    simp only [_collect_values_from_tab] at h
    cases hc : collectField tab f with
    | error e =>
      rw [hc] at h
      exact Except.noConfusion h
    | ok v =>
      rw [hc] at h
      cases hr : _collect_values_from_tab t tab with
      | error e =>
        rw [hr] at h
        exact Except.noConfusion h
      | ok sig2 =>
        rw [hr] at h
        injection h with h1
        rw [← h1]
        simp only [List.map_cons]
        rw [ih hr]

theorem collect_ok_all_ok {tab : TabInput} :
    ∀ {fields : List Field} {sig : List (Str × Value)},
    _collect_values_from_tab fields tab = .ok sig →
    ∀ f ∈ fields, ∃ v, collectField tab f = .ok v := by
  intro fields
  induction fields with
  | nil =>
    intro sig h f hf
    exact absurd hf (List.not_mem_nil f)
  | cons g t ih =>
    intro sig h f hf
    simp only [_collect_values_from_tab] at h
    cases hc : collectField tab g with
    | error e =>
      rw [hc] at h
      exact Except.noConfusion h
    | ok v =>
      rw [hc] at h
      cases hr : _collect_values_from_tab t tab with
      | error e =>
        rw [hr] at h
        exact Except.noConfusion h
      | ok sig2 =>
        rcases List.mem_cons.mp hf with rfl | hmem
        · exact ⟨v, hc⟩
        · exact ih hr f hmem

/-- **C6.**  Validation proceeds field-by-field in schema order:
(i) the first failing field's status message is returned, and nothing after
it is validated; (ii) a successful collection carries exactly one entry per
field, in schema order, and means every field validated successfully (so no
signal, not even a partial one, exists when any field fails); (iii) an int
field whose raw text is `"12a"` fails with `'{id}': must be an integer`;
(iv) a float field whose raw text is `"inf"` or `"nan"` fails with
`'{id}': NaN and Infinity are not allowed`. -/
theorem collect_validation_spec :
    (∀ (tab : TabInput) (pre rest : List Field) (f : Field) (e : Str),
      (∀ g ∈ pre, ∃ v, collectField tab g = .ok v) →
      collectField tab f = .error e →
      _collect_values_from_tab (pre ++ f :: rest) tab = .error e) ∧
    (∀ (tab : TabInput) (fields : List Field) (sig : List (Str × Value)),
      _collect_values_from_tab fields tab = .ok sig →
      sig.map Prod.fst = fields.map Field.id ∧
      ∀ f ∈ fields, ∃ v, collectField tab f = .ok v) ∧
    (∀ (id : Str) (w : Int) (tab : TabInput), tab.textRaw id = "12a".data →
      collectField tab ⟨id, .int w⟩ = .error ("'".data ++ id ++ "': must be an integer".data) ∧
      occursIn id ("'".data ++ id ++ "': must be an integer".data) = true ∧
      occursIn "must be an integer".data
        ("'".data ++ id ++ "': must be an integer".data) = true) ∧
    (∀ (id : Str) (w : Int) (tab : TabInput),
      tab.textRaw id = "inf".data ∨ tab.textRaw id = "nan".data →
      collectField tab ⟨id, .float w⟩ =
        .error ("'".data ++ id ++ "': NaN and Infinity are not allowed".data) ∧
      occursIn "NaN and Infinity are not allowed".data
        ("'".data ++ id ++ "': NaN and Infinity are not allowed".data) = true) := by
  refine ⟨?_, ?_, ?_, ?_⟩
  · intro tab pre rest f e h1 h2
    exact collect_first_error pre rest h1 h2
  · intro tab fields sig h
    exact ⟨collect_ok_ids h, collect_ok_all_ok h⟩
  · intro id w tab htext
    refine ⟨?_, ?_, ?_⟩
    · simp only [collectField]
      rw [htext]
      rfl
    · exact occursIn_of_decomp "'".data ("': must be an integer".data)
        (by simp [List.append_assoc])
    · exact occursIn_of_decomp ("'".data ++ id ++ "': ".data) []
        (by rw [show ("': must be an integer" : String).data
              = "': ".data ++ ("must be an integer".data ++ ([] : Str)) from rfl]
            simp [List.append_assoc])
  · intro id w tab htext
    refine ⟨?_, ?_⟩
    · rcases htext with h1 | h1
      · simp only [collectField]
        rw [h1]
        rfl
      · simp only [collectField]
        rw [h1]
        rfl
    · exact occursIn_of_decomp ("'".data ++ id ++ "': ".data) []
        (by rw [show ("': NaN and Infinity are not allowed" : String).data
              = "': ".data ++ ("NaN and Infinity are not allowed".data ++ ([] : Str)) from rfl]
            simp [List.append_assoc])

/-- Witness for `collect_validation_spec`: a single int field with raw text
`12a` yields the must-be-an-integer status error, and a float field with raw
text `inf` yields the NaN/Infinity status error. -/
theorem collect_validation_spec_witness :
    _collect_values_from_tab [⟨"n".data, .int 10⟩]
        ⟨fun _ => false, fun _ => "12a".data⟩ =
      .error "'n': must be an integer".data ∧
    collectField ⟨fun _ => false, fun _ => "inf".data⟩ ⟨"r".data, .float 10⟩ =
      .error "'r': NaN and Infinity are not allowed".data := by
  constructor
  · exact collect_validation_spec.1 ⟨fun _ => false, fun _ => "12a".data⟩ [] []
      ⟨"n".data, .int 10⟩ "'n': must be an integer".data
      (fun g hg => absurd hg (List.not_mem_nil g)) rfl
  · exact (collect_validation_spec.2.2.2 "r".data 10
      ⟨fun _ => false, fun _ => "inf".data⟩ (Or.inl rfl)).1

end FormProducer
